import Mathlib

/-!
# libpod: generation of the runtime descriptor

A shallow embedding of `getOverlayUpperAndWorkDir` and of the steps of
`Container.generateSpec` (`libpod/container_internal_common.go`), followed by
theorems about them.

Go strings are embedded as `String`, Go `int` values as `Int` (with an explicit
wrap where 64-bit addition occurs), fallible code returns `Except String`.
-/

namespace Libpod

/-! ## Go string helpers -/

/-- The Go function `strings.HasPrefix s p`. -/
def HasPrefix (s p : String) : Bool :=
  p.data.isPrefixOf s.data

/-- The part of `cs` after its first `=`, if there is one. -/
def afterEq : List Char → Option (List Char)
  | [] => none
  | c :: cs => if c = '=' then some cs else afterEq cs

/-- The part of `cs` before its first `=` (all of `cs` when there is none). -/
def beforeEq : List Char → List Char
  | [] => []
  | c :: cs => if c = '=' then [] else c :: beforeEq cs

/-- The Go call `strings.SplitN(s, "=", 2)`: the text before the first `=` and the
text after it, or `s` alone when it has no `=`. -/
def SplitN2 (s : String) : List String :=
  match afterEq s.data with
  | none => [s]
  | some rest => [String.mk (beforeEq s.data), String.mk rest]

/-! ## getOverlayUpperAndWorkDir -/

/-- One iteration of the loop of `getOverlayUpperAndWorkDir` over option `o`, from the
current `upperDir` and `workDir`. -/
def overlayStep (o : String) (upperDir workDir : String) : Except String (String × String) := do
  let upperDir ←
    if HasPrefix o "upperdir" then
      match SplitN2 o with
      | [_, v] =>
        if v = "" then throw "cannot accept empty value for upperdir" else pure v
      | _ => pure upperDir
    else pure upperDir
  let workDir ←
    if HasPrefix o "workdir" then
      match SplitN2 o with
      | [_, v] =>
        if v = "" then throw "cannot accept empty value for workdir" else pure v
      | _ => pure workDir
    else pure workDir
  pure (upperDir, workDir)

/-- The loop of `getOverlayUpperAndWorkDir` and its closing check. -/
def overlayLoop : List String → String → String → Except String (String × String)
  | [], upperDir, workDir =>
    if (upperDir ≠ "" ∧ workDir = "") ∨ (upperDir = "" ∧ workDir ≠ "") then
      throw "must specify both upperdir and workdir"
    else pure (upperDir, workDir)
  | o :: rest, upperDir, workDir =>
    match overlayStep o upperDir workDir with
    | .error e => .error e
    | .ok (u, w) => overlayLoop rest u w

/-- Upper and work dir from overlay options. -/
def getOverlayUpperAndWorkDir (options : List String) : Except String (String × String) :=
  overlayLoop options "" ""

/-- The value the code reads from option `o` for the key `key`: `o` starts with `key`
and has an `=`, and the value is the text after the first `=`. -/
def keyedValue (key o : String) : Option String :=
  if HasPrefix o key then (afterEq o.data).map String.mk else none

/-- The value of a token written `key=<value>`. -/
def exactValue (key o : String) : Option String :=
  if HasPrefix o (key ++ "=") then some (String.mk (o.data.drop (key.length + 1))) else none

/-- The pairing rule of the overlay options for a reading `val` of the tokens: no
`upperdir` and no `workdir` value, or both present and every value non-empty. -/
def PairRule (val : String → String → Option String) (options : List String) : Prop :=
  ((∀ o ∈ options, val "upperdir" o = none) ∧ (∀ o ∈ options, val "workdir" o = none)) ∨
  ((∃ o ∈ options, (val "upperdir" o).isSome) ∧ (∃ o ∈ options, (val "workdir" o).isSome) ∧
    (∀ o ∈ options, val "upperdir" o ≠ some "" ∧ val "workdir" o ≠ some ""))

/-- Whether a result is a success. -/
def succeeds {ε α : Type} : Except ε α → Bool
  | .ok _ => true
  | .error _ => false

/-- The value left in a variable by the loop: the last value read for `key`, or `init`. -/
def finalValue (key : String) (options : List String) (init : String) : String :=
  options.foldl (fun acc o => (keyedValue key o).getD acc) init

/-- The Go function `strings.TrimPrefix s p`. -/
def TrimPrefix (s p : String) : String :=
  if HasPrefix s p then String.mk (s.data.drop p.data.length) else s

/-- The Go function `strings.HasSuffix s p`. -/
def HasSuffix (s p : String) : Bool :=
  p.data.reverse.isPrefixOf s.data.reverse

/-- The Go function `strings.TrimSuffix s p`. -/
def TrimSuffix (s p : String) : String :=
  if HasSuffix s p then String.mk (s.data.take (s.data.length - p.data.length)) else s

/-- The Go call `strings.Contains(s, ":")`. -/
def containsColon (s : String) : Bool :=
  s.data.contains ':'

/-! ## Data model -/

/-- A mount of the runtime descriptor (`spec.Mount`). -/
structure Mount where
  Destination : String
  Typ : String
  Source : String
  Options : List String
deriving DecidableEq, Repr

/-- An entry of the descriptor's UID or GID mapping table (`spec.LinuxIDMapping`); the
fields are 32-bit unsigned values. -/
structure LinuxIDMapping where
  ContainerID : Nat
  HostID : Nat
  Size : Nat
deriving DecidableEq, Repr

/-- An entry of the configured ID-mapping tables (`idtools.IDMap`); the fields are Go
`int` values. -/
structure IDMap where
  ContainerID : Int
  HostID : Int
  Size : Int
deriving DecidableEq, Repr

/-- A namespace of the descriptor (`spec.LinuxNamespace`). -/
structure LinuxNamespace where
  Typ : String
  Path : String
deriving DecidableEq, Repr

/-- The fields of the runtime descriptor (`spec.Spec`) that `generateSpec` reads or
writes, flattened. -/
structure Spec where
  Mounts : List Mount
  Env : List String
  UID : Nat
  GID : Nat
  AdditionalGids : List Nat
  Umask : Option Nat
  ApparmorProfile : String
  SelinuxLabel : String
  MountLabel : String
  Namespaces : List LinuxNamespace
  UIDMappings : List LinuxIDMapping
  GIDMappings : List LinuxIDMapping
  RootfsPropagation : String
  RootPath : String
  Readonly : Bool
  Hostname : String
  CgroupsPath : String
  Annotations : List (String × String)
deriving DecidableEq, Repr

/-- The resolved execution identity (`user.ExecUser`). -/
structure ExecUser where
  Uid : Int
  Gid : Int
  Sgids : List Int
  Home : String
deriving DecidableEq, Repr

/-- A named volume of the container configuration (`ContainerNamedVolume`). -/
structure ContainerNamedVolume where
  Name : String
  Dest : String
  Options : List String
deriving DecidableEq, Repr

/-- An overlay volume of the container configuration (`ContainerOverlayVolume`). -/
structure ContainerOverlayVolume where
  Dest : String
  Source : String
  Options : List String
deriving DecidableEq, Repr

/-- An image volume of the container configuration (`ContainerImageVolume`). -/
structure ContainerImageVolume where
  Source : String
  Dest : String
  ReadWrite : Bool
deriving DecidableEq, Repr

/-- The configured ID mappings (`storage.IDMappingOptions`). -/
structure IDMappingOptions where
  UIDMap : List IDMap
  GIDMap : List IDMap
  AutoUserNs : Bool
deriving DecidableEq, Repr

/-- The fields of the container configuration (`c.config`) and of its runtime state
(`c.state`) that `generateSpec` reads. `Spec` is the template descriptor at the start of
the build. `BindMounts` is the destination to source map of the state, a Go map, listed
in the order in which the loop visits it. -/
structure Container where
  Spec : Spec
  User : String
  HostUsers : List String
  Groups : List String
  Umask : String
  NamedVolumes : List ContainerNamedVolume
  OverlayVolumes : List ContainerOverlayVolume
  ImageVolumes : List ContainerImageVolume
  IDMappings : IDMappingOptions
  MountAllDevices : Bool
  CreateNetNS : Bool
  PostConfigureNetNS : Bool
  Systemd : Bool
  CDIDevices : List String
  EnvSecrets : List (String × String)
  StaticDir : String
  ShmDir : String
  IPCNsCtr : String
  MountNsCtr : String
  NetNsCtr : String
  PIDNsCtr : String
  UserNsCtr : String
  UTSNsCtr : String
  CgroupNsCtr : String
  Mountpoint : String
  BindMounts : List (String × String)
  NetNSPath : String
  ConfigHostname : String

/-- The lookup `c.state.BindMounts[key]` of a Go map: the value, or the empty string when
the key is absent. -/
def Container.bindMountAt (c : Container) (key : String) : String :=
  (c.BindMounts.lookup key).getD ""

/-- The method `c.IsReadOnly`: the flag `c.config.Spec.Root.Readonly`. The generator is
made from `c.config.Spec` itself (`generate.NewFromSpec`), so what the code reads from
`c.config.Spec` during the build is read here from the generator's descriptor. -/
def IsReadOnly (g : Spec) : Bool :=
  g.Readonly

/-- The state of a build: the generator's descriptor `g.Config`, the number of scratch
directories asked of `overlay.TempDir` so far, and the messages logged so far at the
warning and info levels. -/
structure Build where
  g : Spec
  tmp : Nat
  log : List String
deriving DecidableEq, Repr

/-! ## The generator (`runtime-tools/generate`) -/

/-- The method `g.AddMount`: appends to `g.Config.Mounts`. -/
def Spec.AddMount (g : Spec) (mnt : Mount) : Spec :=
  { g with Mounts := g.Mounts ++ [mnt] }

/-- The method `g.ClearMounts`. -/
def Spec.ClearMounts (g : Spec) : Spec :=
  { g with Mounts := [] }

/-- The method `g.AddProcessAdditionalGid`: appends the gid unless it is already listed. -/
def Spec.AddProcessAdditionalGid (g : Spec) (gid : Nat) : Spec :=
  if gid ∈ g.AdditionalGids then g else { g with AdditionalGids := g.AdditionalGids ++ [gid] }

/-- The method `g.AddLinuxUIDMapping hid cid size`: appends an entry. -/
def Spec.AddLinuxUIDMapping (g : Spec) (hid cid size : Nat) : Spec :=
  { g with UIDMappings := g.UIDMappings ++ [{ HostID := hid, ContainerID := cid, Size := size }] }

/-- The method `g.AddLinuxGIDMapping hid cid size`: appends an entry. -/
def Spec.AddLinuxGIDMapping (g : Spec) (hid cid size : Nat) : Spec :=
  { g with GIDMappings := g.GIDMappings ++ [{ HostID := hid, ContainerID := cid, Size := size }] }

/-- The method `g.ClearLinuxUIDMappings`. -/
def Spec.ClearLinuxUIDMappings (g : Spec) : Spec :=
  { g with UIDMappings := [] }

/-- The method `g.ClearLinuxGIDMappings`. -/
def Spec.ClearLinuxGIDMappings (g : Spec) : Spec :=
  { g with GIDMappings := [] }

/-- The key of an environment entry: `strings.SplitN(e, "=", 2)[0]`. -/
def envKey (e : String) : String :=
  String.mk (beforeEq e.data)

/-- Replaces the first entry of `env` whose key is `name` by `entry`, or appends `entry`
when no entry has that key. -/
def setEnv (name entry : String) : List String → List String
  | [] => [entry]
  | e :: es => if envKey e = name then entry :: es else e :: setEnv name entry es

/-- The method `g.AddProcessEnv name value`: adds `name=value` to the environment, or
replaces the existing entry of that name; an empty name is ignored. -/
def Spec.AddProcessEnv (g : Spec) (name value : String) : Spec :=
  if name = "" then g else { g with Env := setEnv name (name ++ "=" ++ value) g.Env }

/-- The propagation values `g.SetLinuxRootPropagation` accepts. -/
def validRootPropagation : List String :=
  ["", "private", "rprivate", "slave", "rslave", "shared", "rshared", "unbindable", "runbindable"]

/-- The method `g.SetLinuxRootPropagation`. -/
def Spec.SetLinuxRootPropagation (g : Spec) (rp : String) : Except String Spec :=
  if rp ∈ validRootPropagation then pure { g with RootfsPropagation := rp }
  else throw "rootfs-propagation must be empty or one of (r)private|(r)slave|(r)shared|(r)unbindable"

/-- The namespace kinds `g.AddOrReplaceLinuxNamespace` accepts. -/
def validNamespaces : List String :=
  ["network", "pid", "mount", "ipc", "uts", "user", "cgroup"]

/-- Replaces the first namespace of the kind of `ns`, or appends `ns`. -/
def setNamespace (ns : LinuxNamespace) : List LinuxNamespace → List LinuxNamespace
  | [] => [ns]
  | n :: rest => if n.Typ = ns.Typ then ns :: rest else n :: setNamespace ns rest

/-- The method `g.AddOrReplaceLinuxNamespace kind path`. -/
def Spec.AddOrReplaceLinuxNamespace (g : Spec) (kind path : String) : Except String Spec :=
  if kind ∈ validNamespaces then
    pure { g with Namespaces := setNamespace { Typ := kind, Path := path } g.Namespaces }
  else throw "unrecognized namespace"

/-- The method `g.AddAnnotation`: sets the key in the annotation map. -/
def Spec.AddAnnotation (g : Spec) (key value : String) : Spec :=
  { g with Annotations := (key, value) :: g.Annotations.filter (fun kv => kv.1 ≠ key) }

/-! ## External collaborators -/

/-- Why the query of the available ID mappings failed: the kernel files do not exist
(`os.IsNotExist`), or another error. -/
inductive AvailableIDMapsError where
  | notExist (msg : String)
  | other (msg : String)
deriving DecidableEq, Repr

/-- The collaborators `generateSpec` calls and whose code is outside this file: libraries,
the host, and other parts of the container engine. Each is a function of the arguments
the call passes; an effect on the host (an ownership change, a relabel) shows only as
success or failure. -/
structure World where
  /-- The call `lookup.GetUserGroupInfo mountpoint user overrides`. -/
  GetUserGroupInfo : String → String → Except String ExecUser
  /-- The call `lookupHostUser user`. -/
  lookupHostUser : String → Except String ExecUser
  /-- The call `util.AddPrivilegedDevices`. -/
  AddPrivilegedDevices : Spec → Except String Spec
  /-- The call `apparmor.CheckProfileAndLoadDefault`. -/
  CheckProfileAndLoadDefault : String → Except String String
  /-- The method `c.makeBindMounts`: the bind-mount map of the state afterwards. -/
  makeBindMounts : List (String × String) → Except String (List (String × String))
  /-- The method `c.mountNotifySocket`. -/
  mountNotifySocket : Spec → Except String Spec
  /-- The call `butil.GetHostIDs uidmap gidmap uid gid`. -/
  GetHostIDs : List IDMap → List IDMap → Nat → Nat → Except String (Nat × Nat)
  /-- The calls `c.runtime.GetVolume name` and `volume.MountPoint`. -/
  volumeMountPoint : String → Except String String
  /-- The call `overlay.TempDir staticDir rootUID rootGID`; the number is the count of
  scratch directories allocated before this one. -/
  TempDir : String → Nat → Except String String
  /-- The call `overlay.MountWithOptions contentDir source dest opts`, from the content
  directory, the source, the destination and the upper and work directory fragments: the
  type, source and options of the overlay mount (its destination is `dest`). -/
  MountWithOptions : String → String → String → String → String →
    Except String (String × String × List String)
  /-- The call `overlay.Mount contentDir source dest ..`, as `MountWithOptions`. -/
  OverlayMount : String → String → String → Except String (String × String × List String)
  /-- The call `overlay.MountReadOnly contentDir source dest ..`, as `MountWithOptions`. -/
  OverlayMountReadOnly : String → String → String →
    Except String (String × String × List String)
  /-- The method `c.ChangeHostPathOwnership path recurse uid gid`. -/
  ChangeHostPathOwnership : String → Bool → Nat → Nat → Except String Unit
  /-- The method `c.relabel src mountLabel shared`. -/
  relabel : String → String → Bool → Except String Unit
  /-- The calls `LookupImage source` and `img.Mount`. -/
  imageMountPoint : String → Except String String
  /-- The call `lookup.GetContainerGroups groups mountpoint overrides`. -/
  GetContainerGroups : List String → String → Except String (List Nat)
  /-- The method `c.setupSystemd`. -/
  setupSystemd : Spec → Except String Spec
  /-- The call `rootless.IsRootless`. -/
  IsRootless : Bool
  /-- The call `rootless.GetAvailableGids`. -/
  GetAvailableGids : Except String Int
  /-- The namespace path of another container (`nsCtr.NamespacePath`), from the
  container's name and the namespace kind. -/
  NamespacePath : String → String → Except String String
  /-- The call `rootless.GetAvailableIDMaps`. -/
  GetAvailableIDMaps : Except AvailableIDMapsError (List IDMap × List IDMap)
  /-- The call `rootless.MaybeSplitMappings mappings available`. -/
  MaybeSplitMappings : List LinuxIDMapping → List IDMap → List LinuxIDMapping
  /-- The call `os.Hostname`. -/
  Hostname : Except String String
  /-- The method `c.getOCICgroupPath`. -/
  getOCICgroupPath : Except String String
  /-- The CDI registry call `registry.InjectDevices`. -/
  InjectDevices : Spec → List String → Except String Spec
  /-- The method `c.setupOCIHooks`, as its effect on `g.Config`. -/
  setupOCIHooks : Spec → Except String Spec
  /-- The calls `c.runtime.SecretsManager` and `manager.LookupSecretData name`. -/
  LookupSecretData : String → Except String String
  /-- The call `os.LookupEnv`. -/
  LookupEnv : String → Option String
  /-- The call `securejoin.SecureJoin root unsafePath`. -/
  SecureJoin : String → String → Except String String
  /-- The method `c.ProcessLabel`. -/
  ProcessLabel : String
  /-- The method `c.MountLabel`. -/
  MountLabel : String
  /-- The creation time of the container, formatted. -/
  CreatedTime : String
  /-- The stop signal of the container, formatted. -/
  StopSignal : String
  /-- The annotation key `annotations.Created`. -/
  AnnotationCreated : String
  /-- The annotation key `annotations.ContainerManager`. -/
  AnnotationContainerManager : String
  /-- The annotation value `annotations.ContainerManagerLibpod`. -/
  ContainerManagerLibpod : String

/-! ## Mount steps of generateSpec -/

/-- The loop over a named volume's options that looks for the overlay marker `O`
(lines 141-149): the overlay flag, the upper dir and the work dir. -/
def overlayFlagLoop (allOptions : List String) :
    List String → Bool × String × String → Except String (Bool × String × String)
  | [], acc => pure acc
  | o :: rest, acc =>
    if o = "O" then
      match getOverlayUpperAndWorkDir allOptions with
      | .error e => .error e
      | .ok (u, w) => overlayFlagLoop allOptions rest (true, u, w)
    else overlayFlagLoop allOptions rest acc

/-- The loop over the options of an overlay that changes the ownership of `first` and
of `contentDir` at each ownership marker `U` (lines 171-181 and 272-282). -/
def chownLoop (W : World) (first contentDir : String) (hostUID hostGID : Nat) :
    List String → Except String Unit
  | [] => pure ()
  | o :: rest =>
    if o = "U" then
      match W.ChangeHostPathOwnership first true hostUID hostGID with
      | .error e => .error e
      | .ok _ =>
        match W.ChangeHostPathOwnership contentDir true hostUID hostGID with
        | .error e => .error e
        | .ok _ => chownLoop W first contentDir hostUID hostGID rest
    else chownLoop W first contentDir hostUID hostGID rest

/-- The mount an overlay call returns, at destination `dest`. -/
def overlayMountAt (dest : String) (r : String × String × List String) : Mount :=
  { Destination := dest, Typ := r.1, Source := r.2.1, Options := r.2.2 }

/-- One iteration of the loop over the named volumes (lines 128-192). -/
def addNamedVolume (W : World) (c : Container) (hostUID hostGID : Nat) (b : Build)
    (namedVol : ContainerNamedVolume) : Except String Build := do
  let mountPoint ← W.volumeMountPoint namedVol.Name
  let (overlayFlag, upperDir, workDir) ←
    overlayFlagLoop namedVol.Options namedVol.Options (false, "", "")
  if overlayFlag then
    let contentDir ← W.TempDir c.StaticDir b.tmp
    let r ← W.MountWithOptions contentDir mountPoint namedVol.Dest upperDir workDir
    chownLoop W mountPoint contentDir hostUID hostGID namedVol.Options
    pure { b with g := b.g.AddMount (overlayMountAt namedVol.Dest r), tmp := b.tmp + 1 }
  else
    let volMount : Mount :=
      { Typ := "bind", Source := mountPoint, Destination := namedVol.Dest,
        Options := namedVol.Options }
    pure { b with g := b.g.AddMount volMount }

/-- The loop over the named volumes (lines 128-192). -/
def addNamedVolumes (W : World) (c : Container) (hostUID hostGID : Nat) :
    List ContainerNamedVolume → Build → Except String Build
  | [], b => pure b
  | v :: rest, b =>
    match addNamedVolume W c hostUID hostGID b v with
    | .error e => .error e
    | .ok b1 => addNamedVolumes W c hostUID hostGID rest b1

/-- The call `label.IsShared o`: whether the label has a `z`. -/
def IsShared (o : String) : Bool :=
  o.data.contains 'z'

/-- The loop over the options of mount `m` (lines 200-221), from the options still to
read and the options kept so far. -/
def normalizeOptions (W : World) (execUser : ExecUser) (hostUID hostGID : Nat) (m : Mount) :
    List String → List String → Except String (List String)
  | [], options => pure options
  | o :: rest, options =>
    if o = "U" then
      if m.Typ = "tmpfs" then
        normalizeOptions W execUser hostUID hostGID m rest
          (options ++ ["uid=" ++ toString execUser.Uid, "gid=" ++ toString execUser.Gid])
      else
        match W.ChangeHostPathOwnership m.Source true hostUID hostGID with
        | .error e => .error e
        | .ok _ => normalizeOptions W execUser hostUID hostGID m rest options
    else if o = "z" ∨ o = "Z" then
      match W.relabel m.Source W.MountLabel (IsShared o) with
      | .error e => .error e
      | .ok _ => normalizeOptions W execUser hostUID hostGID m rest options
    else normalizeOptions W execUser hostUID hostGID m rest (options ++ [o])

/-- The loop over the mounts of the descriptor that consumes the markers `U`, `z` and
`Z` (lines 197-223). -/
def normalizeMounts (W : World) (execUser : ExecUser) (hostUID hostGID : Nat) :
    List Mount → Except String (List Mount)
  | [] => pure []
  | m :: rest =>
    match normalizeOptions W execUser hostUID hostGID m m.Options [] with
    | .error e => .error e
    | .ok options =>
      match normalizeMounts W execUser hostUID hostGID rest with
      | .error e => .error e
      | .ok rest1 => pure ({ m with Options := options } :: rest1)

/-- Modelled from the spec: `MountExists` of libpod, whose code is not in the sources
read; "the destination already exists in the accumulated mount list". -/
def MountExists (specMounts : List Mount) (dest : String) : Bool :=
  specMounts.any (fun m => m.Destination = dest)

/-- The bind mount built for a pair of the state's bind-mount map (lines 230-241). -/
def newBindMount (c : Container) (g : Spec) (dstPath srcPath : String) : Mount :=
  let options := ["bind", "rprivate"]
  let options :=
    if IsReadOnly g ∧ dstPath ≠ "/dev/shm" then options ++ ["ro", "nosuid", "noexec", "nodev"]
    else options
  let options :=
    if dstPath = "/dev/shm" ∧ c.bindMountAt "/dev/shm" = c.ShmDir then
      options ++ ["nosuid", "noexec", "nodev"]
    else options
  { Typ := "bind", Source := srcPath, Destination := dstPath, Options := options }

/-- One iteration of the loop over the state's bind mounts (lines 229-247). -/
def addBindMount (c : Container) (b : Build) (dstPath srcPath : String) : Build :=
  if ¬ MountExists b.g.Mounts dstPath then
    { b with g := b.g.AddMount (newBindMount c b.g dstPath srcPath) }
  else
    { b with log := b.log ++ ["User mount overriding libpod mount at " ++ dstPath] }

/-- The loop over the state's bind mounts (lines 229-247). -/
def addBindMounts (c : Container) (b : Build) : Build :=
  c.BindMounts.foldl (fun b p => addBindMount c b p.1 p.2) b

/-- One iteration of the loop over the overlay volumes (lines 250-285). -/
def addOverlayVolume (W : World) (c : Container) (hostUID hostGID : Nat) (b : Build)
    (overlayVol : ContainerOverlayVolume) : Except String Build := do
  let (upperDir, workDir) ← getOverlayUpperAndWorkDir overlayVol.Options
  let contentDir ← W.TempDir c.StaticDir b.tmp
  let r ← W.MountWithOptions contentDir overlayVol.Source overlayVol.Dest upperDir workDir
  chownLoop W overlayVol.Source contentDir hostUID hostGID overlayVol.Options
  pure { b with g := b.g.AddMount (overlayMountAt overlayVol.Dest r), tmp := b.tmp + 1 }

/-- The loop over the overlay volumes (lines 250-285). -/
def addOverlayVolumes (W : World) (c : Container) (hostUID hostGID : Nat) :
    List ContainerOverlayVolume → Build → Except String Build
  | [], b => pure b
  | v :: rest, b =>
    match addOverlayVolume W c hostUID hostGID b v with
    | .error e => .error e
    | .ok b1 => addOverlayVolumes W c hostUID hostGID rest b1

/-- One iteration of the loop over the image volumes (lines 288-314). -/
def addImageVolume (W : World) (c : Container) (b : Build) (volume : ContainerImageVolume) :
    Except String Build := do
  let mountPoint ← W.imageMountPoint volume.Source
  let contentDir ← W.TempDir c.StaticDir b.tmp
  let r ←
    if volume.ReadWrite then W.OverlayMount contentDir mountPoint volume.Dest
    else W.OverlayMountReadOnly contentDir mountPoint volume.Dest
  pure { b with g := b.g.AddMount (overlayMountAt volume.Dest r), tmp := b.tmp + 1 }

/-- The loop over the image volumes (lines 288-314). -/
def addImageVolumes (W : World) (c : Container) :
    List ContainerImageVolume → Build → Except String Build
  | [], b => pure b
  | v :: rest, b =>
    match addImageVolume W c b v with
    | .error e => .error e
    | .ok b1 => addImageVolumes W c rest b1

/-! ## Sorting and materializing the mounts -/

/-- The number of path separators of a destination. -/
def pathDepth (dest : String) : Nat :=
  dest.data.count '/'

/-- Modelled from the spec: `sortMounts` of libpod, whose code is not in the sources
read; "sort the accumulated mount list by ascending path-depth (number of path
separators in the destination)". -/
def sortMounts (m : List Mount) : List Mount :=
  m.insertionSort (fun a b => pathDepth a.Destination ≤ pathDepth b.Destination)

/-- Modelled from the spec: the propagation constants of libpod, whose declarations are
not in the sources read; the markers `shared`, `rshared`, `slave` and `rslave`. -/
def MountShared : String := "shared"

/-- Modelled from the spec: see `MountShared`. -/
def MountRShared : String := "rshared"

/-- Modelled from the spec: see `MountShared`. -/
def MountSlave : String := "slave"

/-- Modelled from the spec: see `MountShared`. -/
def MountRSlave : String := "rslave"

/-- The switch on one option of a mount (lines 561-570): the root propagation after it. -/
def propagationStep (rootPropagation opt : String) : String :=
  if opt = MountShared ∨ opt = MountRShared then
    if rootPropagation ≠ MountShared ∧ rootPropagation ≠ MountRShared then MountShared
    else rootPropagation
  else if opt = MountSlave ∨ opt = MountRSlave then
    if rootPropagation ≠ MountShared ∧ rootPropagation ≠ MountRShared ∧
        rootPropagation ≠ MountSlave ∧ rootPropagation ≠ MountRSlave then MountRSlave
    else rootPropagation
  else rootPropagation

/-- The rewrite of a tmpfs mount's destination (lines 551-558). -/
def canonicalizeMount (W : World) (c : Container) (m : Mount) : Except String Mount :=
  if m.Typ = "tmpfs" then
    match W.SecureJoin c.Mountpoint m.Destination with
    | .error e =>
      .error ("error resolving symlinks for mount destination " ++ m.Destination ++ ": " ++ e)
    | .ok finalPath =>
      pure { m with Destination := TrimPrefix finalPath (TrimSuffix c.Mountpoint "/") }
  else pure m

/-- The loop over the sorted mounts (lines 546-572), from the descriptor and the root
propagation so far. -/
def materializeMounts (W : World) (c : Container) :
    List Mount → Spec × String → Except String (Spec × String)
  | [], acc => pure acc
  | m :: rest, (g, rootPropagation) =>
    match canonicalizeMount W c m with
    | .error e => .error e
    | .ok m1 =>
      materializeMounts W c rest (g.AddMount m1, m1.Options.foldl propagationStep rootPropagation)

/-- Sorting the mounts, materializing them and setting the root propagation
(lines 534-579). -/
def finalizeMounts (W : World) (c : Container) (g : Spec) : Except String Spec := do
  let mounts := sortMounts g.Mounts
  let g := g.ClearMounts
  let (g, rootPropagation) ← materializeMounts W c mounts (g, "")
  if rootPropagation ≠ "" then g.SetLinuxRootPropagation rootPropagation else pure g

/-! ## Identity, groups, namespaces and ID mappings -/

/-- The conversion `uint32(x)` of a Go `int`. -/
def toUint32 (x : Int) : Nat :=
  (x % 4294967296).toNat

/-- The value of a 64-bit signed sum that may wrap around. -/
def wrapInt64 (x : Int) : Int :=
  (x + 9223372036854775808) % 18446744073709551616 - 9223372036854775808

/-- The environment gets a `HOME` entry when it has none and the user has a home
(lines 316-325). -/
def ensureHome (execUser : ExecUser) (g : Spec) : Spec :=
  let hasHomeSet := g.Env.any (fun s => HasPrefix s "HOME=")
  if ¬ hasHomeSet ∧ execUser.Home ≠ "" then { g with Env := g.Env ++ ["HOME=" ++ execUser.Home] }
  else g

/-- The process identity is set when a user is configured (lines 327-332). -/
def setProcessUser (c : Container) (execUser : ExecUser) (g : Spec) : Spec :=
  if c.User ≠ "" then
    ({ g with UID := toUint32 execUser.Uid, GID := toUint32 execUser.Gid } : Spec).AddProcessAdditionalGid
      (toUint32 execUser.Gid)
  else g

/-- The value of an octal digit. -/
def octalDigit (ch : Char) : Option Nat :=
  if '0' ≤ ch ∧ ch ≤ '7' then some (ch.toNat - '0'.toNat) else none

/-- The value of a string of octal digits, from the value read so far. -/
def parseOctalFrom : List Char → Nat → Option Nat
  | [], acc => some acc
  | ch :: rest, acc =>
    match octalDigit ch with
    | none => none
    | some d => parseOctalFrom rest (8 * acc + d)

/-- The call `strconv.ParseUint(s, 8, 32)`. -/
def parseOctal32 (s : String) : Except String Nat :=
  if s.data = [] then throw "invalid syntax"
  else
    match parseOctalFrom s.data 0 with
    | none => throw "invalid syntax"
    | some v => if v < 4294967296 then pure v else throw "value out of range"

/-- The umask is parsed and set (lines 334-341). -/
def setUmask (c : Container) (g : Spec) : Except String Spec :=
  if c.Umask ≠ "" then
    match parseOctal32 c.Umask with
    | .error e => .error ("invalid Umask Value: " ++ e)
    | .ok decVal => pure { g with Umask := some decVal }
  else pure g

/-- The groups of the configuration are added (lines 343-352). -/
def addConfiguredGroups (W : World) (c : Container) (g : Spec) : Except String Spec :=
  if c.Groups.length > 0 then
    match W.GetContainerGroups c.Groups c.Mountpoint with
    | .error e => .error ("error looking up supplemental groups for container: " ++ e)
    | .ok gids => pure (gids.foldl Spec.AddProcessAdditionalGid g)
  else pure g

/-- The GID mappings present inside the container's user namespace (lines 363-385). -/
def gidMappingsFor (W : World) (c : Container) : Except String (List IDMap) :=
  if c.IDMappings.GIDMap.length > 0 then pure c.IDMappings.GIDMap
  else if W.IsRootless then
    match W.GetAvailableGids with
    | .error e => .error ("cannot read number of available GIDs: " ++ e)
    | .ok availableGids => pure [{ ContainerID := 0, HostID := 0, Size := availableGids }]
  else pure [{ ContainerID := 0, HostID := 0, Size := 2147483647 }]

/-- The inner loop over the mappings (lines 387-393): whether some mapping holds `gid`. -/
def isGIDAvailable (gidMappings : List IDMap) (gid : Int) : Bool :=
  gidMappings.any (fun m => m.ContainerID ≤ gid ∧ gid < wrapInt64 (m.ContainerID + m.Size))

/-- The warning logged for a supplemental group that is skipped (line 397). -/
def gidWarning (gid : Int) : String :=
  "Additional gid=" ++ toString gid ++ " is not present in the user namespace, skip setting it"

/-- One iteration of the loop over the user's supplemental groups (lines 386-399). -/
def addSupplementalGid (gidMappings : List IDMap) (b : Build) (gid : Int) : Build :=
  if isGIDAvailable gidMappings gid then
    { b with g := b.g.AddProcessAdditionalGid (toUint32 gid) }
  else
    { b with log := b.log ++ [gidWarning gid] }

/-- The groups the user belongs to are looked up and added, if a group was not directly
specified (lines 360-400). -/
def addSupplementalGroups (W : World) (c : Container) (execUser : ExecUser) (b : Build) :
    Except String Build :=
  if ¬ containsColon c.User then
    match gidMappingsFor W c with
    | .error e => .error e
    | .ok gidMappings => pure (execUser.Sgids.foldl (addSupplementalGid gidMappings) b)
  else pure b

/-- Modelled from the spec: `addNamespaceContainer` of libpod, whose code is not in the
sources read; "resolve that container's current namespace path and emit
join-container; failure to resolve is fatal". -/
def addNamespaceContainer (W : World) (g : Spec) (ctr kind : String) : Except String Spec :=
  match W.NamespacePath ctr kind with
  | .error e => .error e
  | .ok nsPath => g.AddOrReplaceLinuxNamespace kind nsPath

/-- A namespace is joined when its source container is configured. -/
def joinNamespace (W : World) (ctr kind : String) (g : Spec) : Except String Spec :=
  if ctr ≠ "" then addNamespaceContainer W g ctr kind else pure g

/-- The user namespace of another container is joined (lines 423-432). -/
def joinUserNamespace (W : World) (c : Container) (g : Spec) : Except String Spec :=
  if c.UserNsCtr ≠ "" then
    match addNamespaceContainer W g c.UserNsCtr "user" with
    | .error e => .error e
    | .ok g =>
      if g.UIDMappings.length = 0 then
        pure ((g.AddLinuxUIDMapping 0 0 1).AddLinuxGIDMapping 0 0 1)
      else pure g
  else pure g

/-- The mappings are fitted to the available ones (lines 434-445). -/
def fitMappings (W : World) (g : Spec) : Except String Spec :=
  match W.GetAvailableIDMaps with
  | .error (.notExist _) => pure g
  | .error (.other e) => .error e
  | .ok (availableUIDs, availableGIDs) =>
    let g := { g with UIDMappings := W.MaybeSplitMappings g.UIDMappings availableUIDs }
    pure { g with GIDMappings := W.MaybeSplitMappings g.GIDMappings availableGIDs }

/-- The hostname and the `HOSTNAME` entry of the environment (lines 447-478). -/
def setHostname (W : World) (c : Container) (g : Spec) : Except String Spec := do
  let foundUTS := g.Namespaces.any (fun i => i.Typ = "uts" ∧ i.Path = "")
  let g := if foundUTS then { g with Hostname := c.ConfigHostname } else g
  let hostname ← if ¬ foundUTS then W.Hostname else pure c.ConfigHostname
  let needEnv := ¬ g.Env.any (fun checkEnv => envKey checkEnv = "HOSTNAME")
  pure (if needEnv then g.AddProcessEnv "HOSTNAME" hostname else g)

/-- The mappings are rebuilt for an automatic user namespace (lines 491-503). -/
def autoUserNamespace (c : Container) (g : Spec) : Except String Spec :=
  if c.UserNsCtr = "" ∧ c.IDMappings.AutoUserNs then
    match g.AddOrReplaceLinuxNamespace "user" "" with
    | .error e => .error e
    | .ok g =>
      let g := g.ClearLinuxUIDMappings
      let g := c.IDMappings.UIDMap.foldl
        (fun g uidmap => g.AddLinuxUIDMapping (toUint32 uidmap.HostID)
          (toUint32 uidmap.ContainerID) (toUint32 uidmap.Size)) g
      let g := g.ClearLinuxGIDMappings
      let g := c.IDMappings.GIDMap.foldl
        (fun g gidmap => g.AddLinuxGIDMapping (toUint32 gidmap.HostID)
          (toUint32 gidmap.ContainerID) (toUint32 gidmap.Size)) g
      pure g
  else pure g

/-! ## The closing steps and generateSpec -/

/-- The root path and the annotations (lines 505-511). -/
def setAnnotations (W : World) (c : Container) (g : Spec) : Spec :=
  let g := { g with RootPath := c.Mountpoint }
  let g := g.AddAnnotation W.AnnotationCreated W.CreatedTime
  let g := g.AddAnnotation "org.opencontainers.image.stopSignal" W.StopSignal
  if ¬ g.Annotations.any (fun kv => kv.1 = W.AnnotationContainerManager) then
    g.AddAnnotation W.AnnotationContainerManager W.ContainerManagerLibpod
  else g

/-- The loop over the environment secrets (lines 593-599). -/
def addEnvSecrets (W : World) : List (String × String) → Spec → Except String Spec
  | [], g => pure g
  | (name, secr) :: rest, g =>
    match W.LookupSecretData secr with
    | .error e => .error e
    | .ok data => addEnvSecrets W rest (g.AddProcessEnv name data)

/-- One iteration of the loop that passes down the `LISTEN_*` environment
(lines 603-612). -/
def passListenKey (W : World) (g : Spec) (key : String) : Spec :=
  match W.LookupEnv key with
  | some val =>
    let val := if key = "LISTEN_PID" then "1" else val
    g.AddProcessEnv key val
  | none => g

/-- The loop that passes down the `LISTEN_*` environment (lines 602-612). -/
def passListenEnv (W : World) (g : Spec) : Spec :=
  ["LISTEN_PID", "LISTEN_FDS", "LISTEN_FDNAMES"].foldl (passListenKey W) g

/-- The steps of `generateSpec` that add mounts to the descriptor, from the named
volumes to the image volumes (lines 127-314). -/
def addMounts (W : World) (c : Container) (execUser : ExecUser) (hostUID hostGID : Nat)
    (b : Build) : Except String Build := do
  let b ← addNamedVolumes W c hostUID hostGID c.NamedVolumes b
  let mounts ← normalizeMounts W execUser hostUID hostGID b.g.Mounts
  let b := { b with g := { b.g with Mounts := mounts } }
  let b := { b with g := { b.g with SelinuxLabel := W.ProcessLabel, MountLabel := W.MountLabel } }
  let b := addBindMounts c b
  let b ← addOverlayVolumes W c hostUID hostGID c.OverlayVolumes b
  addImageVolumes W c c.ImageVolumes b

/-- Generate the spec for a container: the descriptor returned and the messages logged,
or the first error. -/
def generateSpec (W : World) (c : Container) : Except String Build := do
  let execUser ←
    match W.GetUserGroupInfo c.Mountpoint c.User with
    | .ok u => pure u
    | .error e => if c.User ∈ c.HostUsers then W.lookupHostUser c.User else throw e
  let g := c.Spec
  let g ← if c.MountAllDevices then W.AddPrivilegedDevices g else pure g
  let g ←
    if c.CreateNetNS then
      if c.PostConfigureNetNS then g.AddOrReplaceLinuxNamespace "network" ""
      else g.AddOrReplaceLinuxNamespace "network" c.NetNSPath
    else pure g
  let g ←
    if g.ApparmorProfile ≠ "" then do
      let updatedProfile ← W.CheckProfileAndLoadDefault g.ApparmorProfile
      pure { g with ApparmorProfile := updatedProfile }
    else pure g
  let bindMounts ← W.makeBindMounts c.BindMounts
  let c := { c with BindMounts := bindMounts }
  let g ← W.mountNotifySocket g
  let (hostUID, hostGID) ←
    W.GetHostIDs c.IDMappings.UIDMap c.IDMappings.GIDMap (toUint32 execUser.Uid)
      (toUint32 execUser.Gid)
  let b ← addMounts W c execUser hostUID hostGID { g := g, tmp := 0, log := [] }
  let g := ensureHome execUser b.g
  let g := setProcessUser c execUser g
  let g ← setUmask c g
  let g ← addConfiguredGroups W c g
  let g ←
    if c.Systemd then
      match W.setupSystemd g with
      | .error e => throw ("error adding systemd-specific mounts: " ++ e)
      | .ok g => pure g
    else pure g
  let b ← addSupplementalGroups W c execUser { b with g := g }
  let g ← joinNamespace W c.IPCNsCtr "ipc" b.g
  let g ← joinNamespace W c.MountNsCtr "mount" g
  let g ← joinNamespace W c.NetNsCtr "network" g
  let g ← joinNamespace W c.PIDNsCtr "pid" g
  let g ← joinUserNamespace W c g
  let g ← fitMappings W g
  let g ← setHostname W c g
  let g ← joinNamespace W c.UTSNsCtr "uts" g
  let g ← joinNamespace W c.CgroupNsCtr "cgroup" g
  let g ← autoUserNamespace c g
  let g := setAnnotations W c g
  let cgroupPath ← W.getOCICgroupPath
  let g := { g with CgroupsPath := cgroupPath }
  let g ←
    if c.CDIDevices.length > 0 then
      match W.InjectDevices g c.CDIDevices with
      | .error e => throw ("error setting up CDI devices: " ++ e)
      | .ok g => pure g
    else pure g
  let g ← finalizeMounts W c g
  let g ←
    match W.setupOCIHooks g with
    | .error e => throw ("error setting up OCI Hooks: " ++ e)
    | .ok g => pure g
  let g ← if c.EnvSecrets.length > 0 then addEnvSecrets W c.EnvSecrets g else pure g
  let g := passListenEnv W g
  pure { b with g := g }

/-! ## Definitions used by the statements -/

/-- The root propagation after the loop over `mounts` (lines 546-572), from `rp`. -/
def derivedPropagation (mounts : List Mount) (rp : String) : String :=
  mounts.foldl (fun rp m => m.Options.foldl propagationStep rp) rp

/-- The mount as it is materialized: a tmpfs mount at its canonical destination. -/
def finalMount (W : World) (c : Container) (m : Mount) : Mount :=
  match canonicalizeMount W c m with
  | .ok m1 => m1
  | .error _ => m

/-- Whether some mount has one of the options `a` and `b`. -/
def anyOption (mounts : List Mount) (a b : String) : Prop :=
  ∃ m ∈ mounts, a ∈ m.Options ∨ b ∈ m.Options

instance anyOptionDecidable (mounts : List Mount) (a b : String) :
    Decidable (anyOption mounts a b) := by
  unfold anyOption
  infer_instance

/-- Whether the secure join succeeds at the destination of every tmpfs mount. -/
def joinsSucceed (W : World) (c : Container) (mounts : List Mount) : Prop :=
  ∀ m ∈ mounts, m.Typ = "tmpfs" → ∃ p, W.SecureJoin c.Mountpoint m.Destination = .ok p

/-! ## Concrete inputs -/

/-- A host on which every collaborator succeeds: the user is root without supplemental
groups, paths have no symbolic links, overlay calls give an overlay mount without
options, the process environment is empty, and the available ID mappings are not
readable. -/
def quietWorld : World where
  GetUserGroupInfo := fun _ _ => .ok { Uid := 0, Gid := 0, Sgids := [], Home := "" }
  lookupHostUser := fun _ => .ok { Uid := 0, Gid := 0, Sgids := [], Home := "" }
  AddPrivilegedDevices := fun g => .ok g
  CheckProfileAndLoadDefault := fun p => .ok p
  makeBindMounts := fun m => .ok m
  mountNotifySocket := fun g => .ok g
  GetHostIDs := fun _ _ uid gid => .ok (uid, gid)
  volumeMountPoint := fun name => .ok ("/volumes/" ++ name)
  TempDir := fun dir n => .ok (dir ++ "/overlay/" ++ toString n)
  MountWithOptions := fun _ _ _ _ _ => .ok ("overlay", "overlay", [])
  OverlayMount := fun _ _ _ => .ok ("overlay", "overlay", [])
  OverlayMountReadOnly := fun _ _ _ => .ok ("overlay", "overlay", [])
  ChangeHostPathOwnership := fun _ _ _ _ => .ok ()
  relabel := fun _ _ _ => .ok ()
  imageMountPoint := fun name => .ok ("/images/" ++ name)
  GetContainerGroups := fun _ _ => .ok []
  setupSystemd := fun g => .ok g
  IsRootless := false
  GetAvailableGids := .ok 65536
  NamespacePath := fun ctr kind => .ok ("/proc/" ++ ctr ++ "/ns/" ++ kind)
  GetAvailableIDMaps := .error (.notExist "no such file")
  MaybeSplitMappings := fun mappings _ => mappings
  Hostname := .ok "host"
  getOCICgroupPath := .ok "/libpod_parent"
  InjectDevices := fun g _ => .ok g
  setupOCIHooks := fun g => .ok g
  LookupSecretData := fun _ => .ok ""
  LookupEnv := fun _ => none
  SecureJoin := fun root path => .ok (root ++ path)
  ProcessLabel := ""
  MountLabel := ""
  CreatedTime := "2022-01-01T00:00:00Z"
  StopSignal := "15"
  AnnotationCreated := "created"
  AnnotationContainerManager := "manager"
  ContainerManagerLibpod := "libpod"

/-- A descriptor without mounts, mappings or environment. -/
def emptySpec : Spec where
  Mounts := []
  Env := []
  UID := 0
  GID := 0
  AdditionalGids := []
  Umask := none
  ApparmorProfile := ""
  SelinuxLabel := ""
  MountLabel := ""
  Namespaces := []
  UIDMappings := []
  GIDMappings := []
  RootfsPropagation := ""
  RootPath := ""
  Readonly := false
  Hostname := ""
  CgroupsPath := ""
  Annotations := []

/-- A container without volumes, users or shared namespaces, mounted at `/merged`. -/
def plainContainer : Container where
  Spec := emptySpec
  User := ""
  HostUsers := []
  Groups := []
  Umask := ""
  NamedVolumes := []
  OverlayVolumes := []
  ImageVolumes := []
  IDMappings := { UIDMap := [], GIDMap := [], AutoUserNs := false }
  MountAllDevices := false
  CreateNetNS := false
  PostConfigureNetNS := false
  Systemd := false
  CDIDevices := []
  EnvSecrets := []
  StaticDir := "/static"
  ShmDir := "/static/shm"
  IPCNsCtr := ""
  MountNsCtr := ""
  NetNsCtr := ""
  PIDNsCtr := ""
  UserNsCtr := ""
  UTSNsCtr := ""
  CgroupNsCtr := ""
  Mountpoint := "/merged"
  BindMounts := []
  NetNSPath := ""
  ConfigHostname := "ctr"

/-- A mount without source. -/
def mountAt (typ dest : String) (options : List String) : Mount :=
  { Typ := typ, Source := "", Destination := dest, Options := options }

/-- A host as `quietWorld` whose container root has the symbolic link
`/var/lib/run -> /run`. -/
def symlinkWorld : World :=
  { quietWorld with
    SecureJoin := fun root path =>
      if path = "/var/lib/run" then .ok (root ++ "/run") else .ok (root ++ path) }

/-- A container whose template has a bind mount at `/run/secrets` and a tmpfs mount at
`/var/lib/run`. -/
def symlinkContainer : Container :=
  { plainContainer with
    Spec := { emptySpec with
      Mounts := [mountAt "tmpfs" "/var/lib/run" [], mountAt "bind" "/run/secrets" []] } }

/-- A container with two named volumes at the destination `/data`. -/
def twoVolumesContainer : Container :=
  { plainContainer with
    NamedVolumes := [{ Name := "first", Dest := "/data", Options := [] },
      { Name := "second", Dest := "/data", Options := [] }] }

/-- The destinations of the mounts of a returned descriptor, in order. -/
def finalDestinations (r : Except String Build) : Option (List String) :=
  match r with
  | .ok b => some (b.g.Mounts.map (fun m => m.Destination))
  | .error _ => none

/-- A descriptor with a mount that asks for `rslave` and a mount that asks for `shared`. -/
def propagationSpec : Spec :=
  { emptySpec with Mounts := [mountAt "bind" "/a" ["rslave"], mountAt "bind" "/b" ["shared"]] }

/-- A container whose template has a mount at `/etc/hosts`, with a named volume at `/data`
and the runtime-state bind mounts `/etc/hosts` and `/etc/resolv.conf`. -/
def hostsContainer : Container :=
  { plainContainer with
    Spec := { emptySpec with Mounts := [mountAt "bind" "/etc/hosts" ["ro"]] }
    NamedVolumes := [{ Name := "data", Dest := "/data", Options := [] }]
    BindMounts := [("/etc/hosts", "/run/ctr/hosts"), ("/etc/resolv.conf", "/run/ctr/resolv.conf")] }

/-- What the normalization leaves of one option of mount `m`: nothing of `z` and `Z`,
of `U` the options `uid=` and `gid=` of the resolved user for a tmpfs mount and nothing
otherwise, and any other option itself. -/
def normalizedOption (execUser : ExecUser) (m : Mount) (o : String) : List String :=
  if o = "z" ∨ o = "Z" then []
  else if o = "U" then
    if m.Typ = "tmpfs" then ["uid=" ++ toString execUser.Uid, "gid=" ++ toString execUser.Gid]
    else []
  else [o]

/-- The mount with each option replaced by what the normalization leaves of it. -/
def normalizedMount (execUser : ExecUser) (m : Mount) : Mount :=
  { m with Options := (m.Options.map (normalizedOption execUser m)).flatten }

/-- Whether the ownership change and the relabel of the source of every mount succeed. -/
def sourcesChangeable (W : World) (hostUID hostGID : Nat) (mounts : List Mount) : Prop :=
  ∀ m ∈ mounts, W.ChangeHostPathOwnership m.Source true hostUID hostGID = .ok () ∧
    ∀ shared, W.relabel m.Source W.MountLabel shared = .ok ()

/-- A template with a tmpfs mount and a bind mount that carry the markers. -/
def markedMounts : List Mount :=
  [mountAt "tmpfs" "/tmp" ["rw", "U", "Z", "nosuid"], mountAt "bind" "/data" ["z", "ro", "U"]]

/-- A container with a read-only root and the runtime-state bind mounts `/dev/shm` and
`/etc/hosts`. -/
def shmContainer : Container :=
  { plainContainer with
    Spec := { emptySpec with Readonly := true }
    BindMounts := [("/dev/shm", "/static/shm"), ("/etc/hosts", "/run/ctr/hosts")] }

/-- Whether some entry of the domain holds `gid`: `containerID <= gid < containerID + size`. -/
def inDomain (gidMappings : List IDMap) (gid : Int) : Prop :=
  ∃ m ∈ gidMappings, m.ContainerID ≤ gid ∧ gid < m.ContainerID + m.Size

instance inDomainDecidable (gidMappings : List IDMap) (gid : Int) :
    Decidable (inDomain gidMappings gid) := by
  unfold inDomain
  infer_instance

/-- Whether the end of every entry of the domain is a 64-bit signed value. -/
def endsFit (gidMappings : List IDMap) : Prop :=
  ∀ m ∈ gidMappings, -9223372036854775808 ≤ m.ContainerID + m.Size ∧
    m.ContainerID + m.Size < 9223372036854775808

/-- A container whose configured GID mapping is `0 0 1000`. -/
def mappedContainer : Container :=
  { plainContainer with
    IDMappings := { UIDMap := [], GIDMap := [{ ContainerID := 0, HostID := 0, Size := 1000 }],
                    AutoUserNs := false } }

/-- A container that joins the user namespace of the container `infra`. -/
def joiningContainer : Container :=
  { plainContainer with UserNsCtr := "infra" }

/-- The entries the `LISTEN_*` loop injects: `LISTEN_PID` with the value `1` when it is set,
`LISTEN_FDS` and `LISTEN_FDNAMES` with their values when they are set. -/
def listenInjected (W : World) : List (String × String) :=
  (match W.LookupEnv "LISTEN_PID" with
    | some _ => [("LISTEN_PID", "1")]
    | none => []) ++
  (match W.LookupEnv "LISTEN_FDS" with
    | some v => [("LISTEN_FDS", v)]
    | none => []) ++
  (match W.LookupEnv "LISTEN_FDNAMES" with
    | some v => [("LISTEN_FDNAMES", v)]
    | none => [])

/-- A host as `quietWorld` that was socket-activated: `LISTEN_PID` is `4821` and `LISTEN_FDS`
is `2`. -/
def activatedWorld : World :=
  { quietWorld with
    LookupEnv := fun key =>
      if key = "LISTEN_PID" then some "4821" else if key = "LISTEN_FDS" then some "2" else none }

/-! ## The steps that set ID mappings -/

/-- The steps of `generateSpec` from the join of another container's user namespace to the
rebuild of the mappings for an automatic user namespace (lines 423-503), in the order of
the code. -/
def mappingSteps (W : World) (c : Container) (g : Spec) : Except String Spec := do
  let g ← joinUserNamespace W c g
  let g ← fitMappings W g
  let g ← setHostname W c g
  let g ← joinNamespace W c.UTSNsCtr "uts" g
  let g ← joinNamespace W c.CgroupNsCtr "cgroup" g
  autoUserNamespace c g

/-- The descriptor entries the rebuild loop makes of a configured table (lines 496-502):
one entry per entry of the table, each field converted to 32 bits. -/
def rebuiltMappings (table : List IDMap) : List LinuxIDMapping :=
  table.map (fun m =>
    { ContainerID := toUint32 m.ContainerID, HostID := toUint32 m.HostID,
      Size := toUint32 m.Size })

/-- A descriptor entry read as an entry of a configured table. -/
def asIDMap (e : LinuxIDMapping) : IDMap :=
  { ContainerID := e.ContainerID, HostID := e.HostID, Size := e.Size }

/-- Whether every field of every entry of the table is a 32-bit ID. -/
def idsInRange (table : List IDMap) : Prop :=
  ∀ m ∈ table, (0 ≤ m.ContainerID ∧ m.ContainerID < 4294967296) ∧
    (0 ≤ m.HostID ∧ m.HostID < 4294967296) ∧ (0 ≤ m.Size ∧ m.Size < 4294967296)

/-- The UID mappings of a returned descriptor. -/
def finalUIDMappings (r : Except String Build) : Option (List LinuxIDMapping) :=
  match r with
  | .ok b => some b.g.UIDMappings
  | .error _ => none

/-- The GID mappings of a returned descriptor. -/
def finalGIDMappings (r : Except String Build) : Option (List LinuxIDMapping) :=
  match r with
  | .ok b => some b.g.GIDMappings
  | .error _ => none

/-- A fitting that splits a mapping whose host range starts at ID 0 and is longer than one
ID into its first ID and the rest, and leaves every other mapping as it is. -/
def splitFirstID (mappings : List LinuxIDMapping) (_available : List IDMap) :
    List LinuxIDMapping :=
  (mappings.map (fun m =>
    if m.HostID = 0 ∧ 1 < m.Size then
      [{ ContainerID := m.ContainerID, HostID := 0, Size := 1 },
        { ContainerID := m.ContainerID + 1, HostID := 1, Size := m.Size - 1 }]
    else [m])).flatten

/-- A host as `quietWorld` on which the available ID mappings are readable, ID 0 and the
65536 IDs from 1 being backed by two ranges, and the fitting is `splitFirstID`. -/
def splittingWorld : World :=
  { quietWorld with
    GetAvailableIDMaps :=
      .ok ([{ ContainerID := 0, HostID := 1000, Size := 1 },
            { ContainerID := 1, HostID := 100000, Size := 65536 }],
           [{ ContainerID := 0, HostID := 1000, Size := 1 },
            { ContainerID := 1, HostID := 100000, Size := 65536 }])
    MaybeSplitMappings := splitFirstID }

/-- A container in auto-user-namespace mode whose configured UID and GID tables are the
one entry with container ID 0, host ID 0 and size 65537. -/
def autoContainer : Container :=
  { plainContainer with
    IDMappings :=
      { UIDMap := [{ ContainerID := 0, HostID := 0, Size := 65537 }],
        GIDMap := [{ ContainerID := 0, HostID := 0, Size := 65537 }],
        AutoUserNs := true } }

/-- A descriptor with one UID mapping and one GID mapping, of container ID 0, host ID 0 and
size 65537. -/
def mappedSpec : Spec :=
  { emptySpec with
    UIDMappings := [{ ContainerID := 0, HostID := 0, Size := 65537 }]
    GIDMappings := [{ ContainerID := 0, HostID := 0, Size := 65537 }] }

/-- A resolved user whose one supplemental group has the gid 4294967294. -/
def highGroupUser : ExecUser :=
  { Uid := 1000, Gid := 1000, Sgids := [4294967294], Home := "" }

/-! ## The final mount list -/

/-- The bind mounts the loop over the state's bind mounts adds when the destinations
`claimed` are taken: one for each pair of the map whose destination is not among them,
in the order of the map. -/
def keptBindMounts (c : Container) (g : Spec) (claimed : List String) : List Mount :=
  (c.BindMounts.filter (fun p => p.1 ∉ claimed)).map (fun p => newBindMount c g p.1 p.2)

/-- Whether a collaborator, when it succeeds, leaves the mount list and the read-only
flag of the descriptor as they are. -/
def keepsMounts (f : Spec → Except String Spec) : Prop :=
  ∀ g g1, f g = .ok g1 → g1.Mounts = g.Mounts ∧ g1.Readonly = g.Readonly

/-- Whether the collaborators of `generateSpec` that are handed the descriptor outside
its mount steps leave the mount list and the read-only flag as they are: the notify-socket
setup and the hooks, and, when the configuration makes `generateSpec` call them, the
device expansion, the systemd setup and the CDI injection. -/
def outsideKeepsMounts (W : World) (c : Container) : Prop :=
  (c.MountAllDevices = true → keepsMounts W.AddPrivilegedDevices) ∧
  keepsMounts W.mountNotifySocket ∧
  (c.Systemd = true → keepsMounts W.setupSystemd) ∧
  (c.CDIDevices.length > 0 → keepsMounts (fun g => W.InjectDevices g c.CDIDevices)) ∧
  keepsMounts W.setupOCIHooks

/-- Whether the materialized destination of every mount is its own destination: the
secure join of a tmpfs destination gives the path itself under the container root. -/
def canonicalPaths (W : World) (c : Container) : Prop :=
  ∀ m, (finalMount W c m).Destination = m.Destination

/-- The mounts of a returned descriptor, in order. -/
def finalMounts (r : Except String Build) : Option (List Mount) :=
  match r with
  | .ok b => some b.g.Mounts
  | .error _ => none

/-! ## Theorems: getOverlayUpperAndWorkDir -/

theorem overlayStep_eq (o u w : String) :
    overlayStep o u w =
      if keyedValue "upperdir" o = some "" then
        .error "cannot accept empty value for upperdir"
      else if keyedValue "workdir" o = some "" then
        .error "cannot accept empty value for workdir"
      else .ok ((keyedValue "upperdir" o).getD u, (keyedValue "workdir" o).getD w) := by
  have hmk : ∀ l : List Char, (String.mk l = "") ↔ l = [] := by
    intro l
    constructor
    · intro h; exact congrArg String.data h
    · intro h; subst h; rfl
  unfold overlayStep keyedValue SplitN2
  cases hU : HasPrefix o "upperdir" <;> cases hW : HasPrefix o "workdir" <;>
    cases hA : afterEq o.data <;>
    simp [hmk, bind, Except.bind, pure, Except.pure, throw, throwThe, MonadExceptOf.throw]

theorem finalValue_eq_empty (key : String) (options : List String) (init : String)
    (h : ∀ o ∈ options, keyedValue key o ≠ some "") :
    finalValue key options init = "" ↔ (∀ o ∈ options, keyedValue key o = none) ∧ init = "" := by
  induction options generalizing init with
  | nil => simp [finalValue]
  | cons o rest ih =>
    have h1 := h o (List.mem_cons_self _ _)
    have h2 : ∀ o ∈ rest, keyedValue key o ≠ some "" :=
      fun x hx => h x (List.mem_cons_of_mem _ hx)
    have := ih ((keyedValue key o).getD init) h2
    simp only [finalValue, List.foldl_cons] at this ⊢
    rw [this]
    cases hk : keyedValue key o with
    | none => simp [hk]
    | some v =>
      have : v ≠ "" := by intro hv; apply h1; rw [hk, hv]
      simp [hk, this]

theorem overlayLoop_succeeds (options : List String) (u w : String) :
    succeeds (overlayLoop options u w) = true ↔
      (∀ o ∈ options, keyedValue "upperdir" o ≠ some "" ∧ keyedValue "workdir" o ≠ some "") ∧
      (finalValue "upperdir" options u = "" ↔ finalValue "workdir" options w = "") := by
  induction options generalizing u w with
  | nil =>
    simp only [overlayLoop, finalValue, List.foldl_nil]
    by_cases hu : u = "" <;> by_cases hw : w = "" <;>
      simp [hu, hw, succeeds, pure, Except.pure, throw, throwThe, MonadExceptOf.throw]
  | cons o rest ih =>
    simp only [overlayLoop, overlayStep_eq]
    by_cases h1 : keyedValue "upperdir" o = some ""
    · simp [h1, succeeds]
    · by_cases h2 : keyedValue "workdir" o = some ""
      · simp [h1, h2, succeeds]
      · simp only [h1, h2, if_false]
        rw [ih]
        simp [finalValue, h1, h2]


/-- C1 (amended): `getOverlayUpperAndWorkDir` succeeds if and only if the list has no
`upperdir` value and no `workdir` value, or has both and every such value is non-empty,
where an option has an `upperdir` (`workdir`) value when it starts with `upperdir`
(`workdir`) and has an `=`, the value being the text after the first `=`. -/
theorem getOverlay_amended (options : List String) :
    succeeds (getOverlayUpperAndWorkDir options) = true ↔ PairRule keyedValue options := by
  unfold getOverlayUpperAndWorkDir PairRule
  rw [overlayLoop_succeeds]
  constructor
  · rintro ⟨hne, hiff⟩
    have hu := finalValue_eq_empty "upperdir" options "" (fun o ho => (hne o ho).1)
    have hw := finalValue_eq_empty "workdir" options "" (fun o ho => (hne o ho).2)
    simp only [and_true] at hu hw
    rw [hu, hw] at hiff
    by_cases hU : ∀ o ∈ options, keyedValue "upperdir" o = none
    · exact Or.inl ⟨hU, hiff.mp hU⟩
    · right
      have hW : ¬ ∀ o ∈ options, keyedValue "workdir" o = none := fun h => hU (hiff.mpr h)
      push_neg at hU hW
      obtain ⟨a, ha, ha2⟩ := hU
      obtain ⟨b, hb, hb2⟩ := hW
      exact ⟨⟨a, ha, Option.isSome_iff_ne_none.mpr ha2⟩,
        ⟨b, hb, Option.isSome_iff_ne_none.mpr hb2⟩, hne⟩
  · rintro (⟨hU, hW⟩ | ⟨⟨a, ha, ha2⟩, ⟨b, hb, hb2⟩, hne⟩)
    · have hne : ∀ o ∈ options,
          keyedValue "upperdir" o ≠ some "" ∧ keyedValue "workdir" o ≠ some "" := by
        intro o ho
        rw [hU o ho, hW o ho]
        simp
      refine ⟨hne, ?_⟩
      rw [finalValue_eq_empty "upperdir" options "" (fun o ho => (hne o ho).1),
        finalValue_eq_empty "workdir" options "" (fun o ho => (hne o ho).2)]
      simp only [and_true]
      exact ⟨fun _ => hW, fun _ => hU⟩
    · refine ⟨hne, ?_⟩
      rw [finalValue_eq_empty "upperdir" options "" (fun o ho => (hne o ho).1),
        finalValue_eq_empty "workdir" options "" (fun o ho => (hne o ho).2)]
      simp only [and_true]
      constructor
      · intro h; rw [h a ha] at ha2; simp at ha2
      · intro h; rw [h b hb] at hb2; simp at hb2

/-- C1 (as stated, refuted): the list with the one option `upperdirs=/tmp/up` has no
`upperdir=<value>` token and no `workdir=<value>` token, and `getOverlayUpperAndWorkDir`
returns an error for it. -/
theorem getOverlay_counterexample :
    ¬ (succeeds (getOverlayUpperAndWorkDir ["upperdirs=/tmp/up"]) = true ↔
        PairRule exactValue ["upperdirs=/tmp/up"]) := by
  intro h
  have hp : PairRule exactValue ["upperdirs=/tmp/up"] := by
    left
    constructor <;> intro o ho <;> simp at ho <;> subst ho <;> decide
  have := h.mpr hp
  revert this
  decide
/-! ## Lemmas: root propagation and the mount steps -/

/-- The root propagation after the options `opts`, from one of the values the loop
can hold. -/
theorem foldl_propagationStep (opts : List String) (rp : String)
    (hrp : rp = "" ∨ rp = "shared" ∨ rp = "rslave") :
    opts.foldl propagationStep rp =
      if rp = "shared" ∨ "shared" ∈ opts ∨ "rshared" ∈ opts then "shared"
      else if rp = "rslave" ∨ "slave" ∈ opts ∨ "rslave" ∈ opts then "rslave"
      else "" := by
  induction opts generalizing rp with
  | nil =>
    rcases hrp with h | h | h <;> subst h <;> simp
  | cons o rest ih =>
    simp only [List.foldl_cons]
    have hstep : propagationStep rp o = "" ∨ propagationStep rp o = "shared" ∨
        propagationStep rp o = "rslave" := by
      unfold propagationStep MountShared MountRShared MountSlave MountRSlave
      rcases hrp with h | h | h <;> subst h <;> split_ifs <;> simp
    rw [ih _ hstep]
    unfold propagationStep MountShared MountRShared MountSlave MountRSlave
    by_cases h1 : o = "shared"
    · subst h1; rcases hrp with h | h | h <;> subst h <;> simp
    by_cases h2 : o = "rshared"
    · subst h2; rcases hrp with h | h | h <;> subst h <;> simp
    by_cases h3 : o = "slave"
    · subst h3; rcases hrp with h | h | h <;> subst h <;> simp
    by_cases h4 : o = "rslave"
    · subst h4; rcases hrp with h | h | h <;> subst h <;> simp
    have e1 : ¬ "shared" = o := fun h => h1 h.symm
    have e2 : ¬ "rshared" = o := fun h => h2 h.symm
    have e3 : ¬ "slave" = o := fun h => h3 h.symm
    have e4 : ¬ "rslave" = o := fun h => h4 h.symm
    simp [h1, h2, h3, h4, e1, e2, e3, e4]
theorem propagation_chain (P Q R S : Prop) [Decidable P] [Decidable Q] [Decidable R]
    [Decidable S] :
    (if (if P then "shared" else if Q then "rslave" else "") = "shared" ∨ R then "shared"
      else if (if P then "shared" else if Q then "rslave" else "") = "rslave" ∨ S then "rslave"
      else "") =
    if P ∨ R then "shared" else if Q ∨ S then "rslave" else "" := by
  by_cases hP : P <;> by_cases hQ : Q <;> by_cases hR : R <;> by_cases hS : S <;>
    simp [hP, hQ, hR, hS]

theorem anyOption_cons (m : Mount) (rest : List Mount) (a b : String) :
    anyOption (m :: rest) a b ↔ (a ∈ m.Options ∨ b ∈ m.Options) ∨ anyOption rest a b := by
  simp [anyOption]

theorem derivedPropagation_eq (mounts : List Mount) (rp : String)
    (hrp : rp = "" ∨ rp = "shared" ∨ rp = "rslave") :
    derivedPropagation mounts rp =
      if rp = "shared" ∨ anyOption mounts "shared" "rshared" then "shared"
      else if rp = "rslave" ∨ anyOption mounts "slave" "rslave" then "rslave"
      else "" := by
  induction mounts generalizing rp with
  | nil => rcases hrp with h | h | h <;> subst h <;> simp [derivedPropagation, anyOption]
  | cons m rest ih =>
    have hm := foldl_propagationStep m.Options rp hrp
    have hstep : m.Options.foldl propagationStep rp = "" ∨
        m.Options.foldl propagationStep rp = "shared" ∨
        m.Options.foldl propagationStep rp = "rslave" := by
      rw [hm]; split_ifs <;> simp
    have := ih _ hstep
    simp only [derivedPropagation, List.foldl_cons] at this ⊢
    rw [this, hm, propagation_chain]
    simp only [anyOption_cons, or_assoc]

theorem canonicalizeMount_ok (W : World) (c : Container) (m : Mount)
    (h : m.Typ = "tmpfs" → ∃ p, W.SecureJoin c.Mountpoint m.Destination = .ok p) :
    canonicalizeMount W c m = .ok (finalMount W c m) := by
  unfold finalMount canonicalizeMount
  by_cases ht : m.Typ = "tmpfs"
  · obtain ⟨p, hp⟩ := h ht
    simp [ht, hp, pure, Except.pure]
  · simp [ht, pure, Except.pure]

theorem finalMount_Options (W : World) (c : Container) (m : Mount) :
    (finalMount W c m).Options = m.Options := by
  unfold finalMount canonicalizeMount
  by_cases ht : m.Typ = "tmpfs"
  · cases hj : W.SecureJoin c.Mountpoint m.Destination <;> simp [ht, hj, pure, Except.pure]
  · simp [ht, pure, Except.pure]

theorem materializeMounts_ok (W : World) (c : Container) (mounts : List Mount) (g : Spec)
    (rp : String) (h : joinsSucceed W c mounts) :
    materializeMounts W c mounts (g, rp) =
      .ok ({ g with Mounts := g.Mounts ++ mounts.map (finalMount W c) },
        derivedPropagation mounts rp) := by
  induction mounts generalizing g rp with
  | nil => simp [materializeMounts, derivedPropagation, pure, Except.pure]
  | cons m rest ih =>
    have hm := canonicalizeMount_ok W c m (h m (List.mem_cons_self _ _))
    have hr : joinsSucceed W c rest := fun x hx => h x (List.mem_cons_of_mem _ hx)
    simp only [materializeMounts, hm]
    rw [ih _ _ hr]
    simp [Spec.AddMount, derivedPropagation, finalMount_Options]

theorem sortMounts_perm (mounts : List Mount) : (sortMounts mounts).Perm mounts :=
  List.perm_insertionSort _ mounts

theorem anyOption_perm {l1 l2 : List Mount} (h : l1.Perm l2) (a b : String) :
    anyOption l1 a b ↔ anyOption l2 a b := by
  unfold anyOption
  constructor
  · rintro ⟨m, hm, ho⟩; exact ⟨m, h.mem_iff.mp hm, ho⟩
  · rintro ⟨m, hm, ho⟩; exact ⟨m, h.mem_iff.mpr hm, ho⟩

theorem joinsSucceed_perm {W : World} {c : Container} {l1 l2 : List Mount} (h : l1.Perm l2)
    (hj : joinsSucceed W c l2) : joinsSucceed W c l1 :=
  fun m hm => hj m (h.mem_iff.mp hm)

/-- The result of `finalizeMounts` when the secure joins succeed. -/
theorem finalizeMounts_ok (W : World) (c : Container) (g : Spec)
    (h : joinsSucceed W c g.Mounts) :
    finalizeMounts W c g = .ok
      { g with
        Mounts := (sortMounts g.Mounts).map (finalMount W c)
        RootfsPropagation :=
          if anyOption g.Mounts "shared" "rshared" then "shared"
          else if anyOption g.Mounts "slave" "rslave" then "rslave"
          else g.RootfsPropagation } := by
  have hs : joinsSucceed W c (sortMounts g.Mounts) := joinsSucceed_perm (sortMounts_perm _) h
  unfold finalizeMounts
  simp only [bind, Except.bind]
  rw [materializeMounts_ok W c _ _ _ hs]
  rw [derivedPropagation_eq _ _ (Or.inl rfl)]
  simp only [anyOption_perm (sortMounts_perm g.Mounts)]
  by_cases a1 : anyOption g.Mounts "shared" "rshared"
  · simp [a1, Spec.SetLinuxRootPropagation, validRootPropagation, Spec.ClearMounts, pure,
      Except.pure]
  · by_cases a2 : anyOption g.Mounts "slave" "rslave"
    · simp [a1, a2, Spec.SetLinuxRootPropagation, validRootPropagation, Spec.ClearMounts, pure,
        Except.pure]
    · simp [a1, a2, Spec.ClearMounts, pure, Except.pure]
theorem addNamedVolume_dest (W : World) (c : Container) (hostUID hostGID : Nat) (b b1 : Build)
    (v : ContainerNamedVolume) (h : addNamedVolume W c hostUID hostGID b v = .ok b1) :
    b1.g.Mounts.map (fun m => m.Destination) =
      b.g.Mounts.map (fun m => m.Destination) ++ [v.Dest] := by
  unfold addNamedVolume at h
  simp only [bind, Except.bind] at h
  cases h1 : W.volumeMountPoint v.Name with
  | error e => simp [h1] at h
  | ok mountPoint =>
    simp only [h1] at h
    cases h2 : overlayFlagLoop v.Options v.Options (false, "", "") with
    | error e => simp [h2] at h
    | ok r =>
      obtain ⟨flag, upperDir, workDir⟩ := r
      simp only [h2] at h
      cases flag with
      | false =>
        simp [pure, Except.pure] at h
        subst h
        simp [Spec.AddMount]
      | true =>
        simp only [if_true] at h
        cases h3 : W.TempDir c.StaticDir b.tmp with
        | error e => simp [h3] at h
        | ok contentDir =>
          simp only [h3] at h
          cases h4 : W.MountWithOptions contentDir mountPoint v.Dest upperDir workDir with
          | error e => simp [h4] at h
          | ok r =>
            simp only [h4] at h
            cases h5 : chownLoop W mountPoint contentDir hostUID hostGID v.Options with
            | error e => simp [h5] at h
            | ok u =>
              simp [h5, pure, Except.pure] at h
              subst h
              simp [Spec.AddMount, overlayMountAt]

theorem addNamedVolumes_dest (W : World) (c : Container) (hostUID hostGID : Nat)
    (vols : List ContainerNamedVolume) (b b1 : Build)
    (h : addNamedVolumes W c hostUID hostGID vols b = .ok b1) :
    b1.g.Mounts.map (fun m => m.Destination) =
      b.g.Mounts.map (fun m => m.Destination) ++ vols.map (fun v => v.Dest) := by
  induction vols generalizing b with
  | nil =>
    simp [addNamedVolumes, pure, Except.pure] at h
    subst h; simp
  | cons v rest ih =>
    simp only [addNamedVolumes] at h
    cases h1 : addNamedVolume W c hostUID hostGID b v with
    | error e => simp [h1] at h
    | ok b2 =>
      simp only [h1] at h
      rw [ih b2 h, addNamedVolume_dest W c hostUID hostGID b b2 v h1]
      simp

theorem normalizeMounts_dest (W : World) (execUser : ExecUser) (hostUID hostGID : Nat)
    (mounts mounts1 : List Mount)
    (h : normalizeMounts W execUser hostUID hostGID mounts = .ok mounts1) :
    mounts1.map (fun m => m.Destination) = mounts.map (fun m => m.Destination) := by
  induction mounts generalizing mounts1 with
  | nil =>
    simp [normalizeMounts, pure, Except.pure] at h
    subst h; rfl
  | cons m rest ih =>
    simp only [normalizeMounts] at h
    cases h1 : normalizeOptions W execUser hostUID hostGID m m.Options [] with
    | error e => simp [h1] at h
    | ok options =>
      simp only [h1] at h
      cases h2 : normalizeMounts W execUser hostUID hostGID rest with
      | error e => simp [h2] at h
      | ok rest1 =>
        simp [h2, pure, Except.pure] at h
        subst h
        simp [ih rest1 h2]

theorem MountExists_iff (mounts : List Mount) (dest : String) :
    MountExists mounts dest = true ↔ dest ∈ mounts.map (fun m => m.Destination) := by
  unfold MountExists
  simp only [List.any_eq_true, decide_eq_true_eq, List.mem_map]

theorem addBindMount_dest (c : Container) (b : Build) (dst src : String) :
    (addBindMount c b dst src).g.Mounts.map (fun m => m.Destination) =
      if dst ∈ b.g.Mounts.map (fun m => m.Destination) then
        b.g.Mounts.map (fun m => m.Destination)
      else b.g.Mounts.map (fun m => m.Destination) ++ [dst] := by
  unfold addBindMount
  by_cases h : MountExists b.g.Mounts dst = true
  · have h2 := (MountExists_iff _ _).mp h
    simp only [h, not_true_eq_false, if_false, h2, if_true]
  · have h2 : dst ∉ b.g.Mounts.map (fun m => m.Destination) :=
      fun hm => h ((MountExists_iff _ _).mpr hm)
    simp only [h, not_false_eq_true, if_true, h2, if_false]
    simp [Spec.AddMount, newBindMount]

theorem foldl_addBindMount_dest (c : Container) (binds : List (String × String)) (b : Build)
    (hkeys : (binds.map Prod.fst).Nodup) :
    (binds.foldl (fun b p => addBindMount c b p.1 p.2) b).g.Mounts.map (fun m => m.Destination) =
      b.g.Mounts.map (fun m => m.Destination) ++
        (binds.map Prod.fst).filter (fun d => d ∉ b.g.Mounts.map (fun m => m.Destination)) := by
  induction binds generalizing b with
  | nil => simp
  | cons p rest ih =>
    simp only [List.map_cons, List.nodup_cons] at hkeys
    obtain ⟨hp, hrest⟩ := hkeys
    simp only [List.foldl_cons]
    rw [ih _ hrest, addBindMount_dest]
    by_cases hd : p.1 ∈ b.g.Mounts.map (fun m => m.Destination)
    · simp only [hd, if_true, List.map_cons]
      rw [List.filter_cons_of_neg (by simpa using hd)]
    · simp only [hd, if_false, List.map_cons]
      rw [List.filter_cons_of_pos (by simpa using hd)]
      simp only [List.append_assoc, List.singleton_append]
      congr 2
      apply List.filter_congr
      intro d hdrest
      have : d ≠ p.1 := fun e => hp (e ▸ hdrest)
      simp [this]

theorem addOverlayVolume_dest (W : World) (c : Container) (hostUID hostGID : Nat) (b b1 : Build)
    (v : ContainerOverlayVolume) (h : addOverlayVolume W c hostUID hostGID b v = .ok b1) :
    b1.g.Mounts.map (fun m => m.Destination) =
      b.g.Mounts.map (fun m => m.Destination) ++ [v.Dest] := by
  unfold addOverlayVolume at h
  simp only [bind, Except.bind] at h
  cases h1 : getOverlayUpperAndWorkDir v.Options with
  | error e => simp [h1] at h
  | ok r =>
    obtain ⟨upperDir, workDir⟩ := r
    simp only [h1] at h
    cases h3 : W.TempDir c.StaticDir b.tmp with
    | error e => simp [h3] at h
    | ok contentDir =>
      simp only [h3] at h
      cases h4 : W.MountWithOptions contentDir v.Source v.Dest upperDir workDir with
      | error e => simp [h4] at h
      | ok r =>
        simp only [h4] at h
        cases h5 : chownLoop W v.Source contentDir hostUID hostGID v.Options with
        | error e => simp [h5] at h
        | ok u =>
          simp [h5, pure, Except.pure] at h
          subst h
          simp [Spec.AddMount, overlayMountAt]

theorem addOverlayVolumes_dest (W : World) (c : Container) (hostUID hostGID : Nat)
    (vols : List ContainerOverlayVolume) (b b1 : Build)
    (h : addOverlayVolumes W c hostUID hostGID vols b = .ok b1) :
    b1.g.Mounts.map (fun m => m.Destination) =
      b.g.Mounts.map (fun m => m.Destination) ++ vols.map (fun v => v.Dest) := by
  induction vols generalizing b with
  | nil =>
    simp [addOverlayVolumes, pure, Except.pure] at h
    subst h; simp
  | cons v rest ih =>
    simp only [addOverlayVolumes] at h
    cases h1 : addOverlayVolume W c hostUID hostGID b v with
    | error e => simp [h1] at h
    | ok b2 =>
      simp only [h1] at h
      rw [ih b2 h, addOverlayVolume_dest W c hostUID hostGID b b2 v h1]
      simp

theorem addImageVolume_dest (W : World) (c : Container) (b b1 : Build)
    (v : ContainerImageVolume) (h : addImageVolume W c b v = .ok b1) :
    b1.g.Mounts.map (fun m => m.Destination) =
      b.g.Mounts.map (fun m => m.Destination) ++ [v.Dest] := by
  unfold addImageVolume at h
  simp only [bind, Except.bind] at h
  cases h1 : W.imageMountPoint v.Source with
  | error e => simp [h1] at h
  | ok mountPoint =>
    simp only [h1] at h
    cases h3 : W.TempDir c.StaticDir b.tmp with
    | error e => simp [h3] at h
    | ok contentDir =>
      simp only [h3] at h
      cases hrw : v.ReadWrite with
      | true =>
        simp only [hrw, if_true] at h
        cases h4 : W.OverlayMount contentDir mountPoint v.Dest with
        | error e => simp [h4] at h
        | ok r =>
          simp [h4, pure, Except.pure] at h
          subst h
          simp [Spec.AddMount, overlayMountAt]
      | false =>
        simp only [hrw] at h
        cases h4 : W.OverlayMountReadOnly contentDir mountPoint v.Dest with
        | error e => simp [h4] at h
        | ok r =>
          simp [h4, pure, Except.pure] at h
          subst h
          simp [Spec.AddMount, overlayMountAt]

theorem addImageVolumes_dest (W : World) (c : Container)
    (vols : List ContainerImageVolume) (b b1 : Build)
    (h : addImageVolumes W c vols b = .ok b1) :
    b1.g.Mounts.map (fun m => m.Destination) =
      b.g.Mounts.map (fun m => m.Destination) ++ vols.map (fun v => v.Dest) := by
  induction vols generalizing b with
  | nil =>
    simp [addImageVolumes, pure, Except.pure] at h
    subst h; simp
  | cons v rest ih =>
    simp only [addImageVolumes] at h
    cases h1 : addImageVolume W c b v with
    | error e => simp [h1] at h
    | ok b2 =>
      simp only [h1] at h
      rw [ih b2 h, addImageVolume_dest W c b b2 v h1]
      simp
/-! ## Theorems: the steps of generateSpec -/

/-- C2: when the tmpfs destinations resolve, `finalizeMounts` returns a descriptor whose
root propagation is `shared` if a mount has the option `shared` or `rshared`, otherwise
`rslave` if a mount has the option `slave` or `rslave`, otherwise the value it had
(none is set); the value is the same for every permutation of the mount list. -/
theorem rootPropagation_derived (W : World) (c : Container) (g : Spec)
    (h : joinsSucceed W c g.Mounts) :
    ∃ g1, finalizeMounts W c g = .ok g1 ∧
      g1.RootfsPropagation =
        (if anyOption g.Mounts "shared" "rshared" then "shared"
          else if anyOption g.Mounts "slave" "rslave" then "rslave"
          else g.RootfsPropagation) ∧
      ∀ mounts, mounts.Perm g.Mounts →
        ∃ g2, finalizeMounts W c { g with Mounts := mounts } = .ok g2 ∧
          g2.RootfsPropagation = g1.RootfsPropagation := by
  refine ⟨_, finalizeMounts_ok W c g h, rfl, ?_⟩
  intro mounts hperm
  have h2 : joinsSucceed W c ({ g with Mounts := mounts } : Spec).Mounts :=
    joinsSucceed_perm hperm h
  refine ⟨_, finalizeMounts_ok W c _ h2, ?_⟩
  simp only [anyOption_perm hperm]

theorem rootPropagation_derived_witness :
    joinsSucceed quietWorld plainContainer propagationSpec.Mounts ∧
    ∃ g1, finalizeMounts quietWorld plainContainer propagationSpec = .ok g1 ∧
      g1.RootfsPropagation = "shared" ∧
      ∃ g2, finalizeMounts quietWorld plainContainer
          { propagationSpec with Mounts := propagationSpec.Mounts.reverse } = .ok g2 ∧
        g2.RootfsPropagation = "shared" := by
  have hj : joinsSucceed quietWorld plainContainer propagationSpec.Mounts :=
    fun _ _ _ => ⟨_, rfl⟩
  obtain ⟨g1, h1, h2, h3⟩ := rootPropagation_derived quietWorld plainContainer propagationSpec hj
  obtain ⟨g2, h4, h5⟩ := h3 propagationSpec.Mounts.reverse (List.reverse_perm _)
  have hs : anyOption propagationSpec.Mounts "shared" "rshared" := by decide
  rw [if_pos hs] at h2
  exact ⟨hj, g1, h1, h2, g2, h4, h5.trans h2⟩

/-- C3: at a container root with the symbolic link `/var/lib/run -> /run`, a template with a
tmpfs mount at `/var/lib/run` and a bind mount at `/run/secrets` gives a descriptor whose
mounts are at `/run/secrets` and `/run`, in this order: the depths 2, 1 decrease. -/
theorem finalMounts_not_sorted :
    ∃ b, generateSpec symlinkWorld symlinkContainer = .ok b ∧
      b.g.Mounts.map (fun m => m.Destination) = ["/run/secrets", "/run"] ∧
      ¬ (b.g.Mounts.map (fun m => pathDepth m.Destination)).Sorted (fun x y => x ≤ y) := by
  have hd : finalDestinations (generateSpec symlinkWorld symlinkContainer) =
      some ["/run/secrets", "/run"] := by decide
  cases hgen : generateSpec symlinkWorld symlinkContainer with
  | error e => rw [hgen] at hd; simp [finalDestinations] at hd
  | ok b =>
    rw [hgen] at hd
    simp only [finalDestinations, Option.some.injEq] at hd
    refine ⟨b, rfl, hd, ?_⟩
    have hm : b.g.Mounts.map (fun m => pathDepth m.Destination) =
        (b.g.Mounts.map (fun m => m.Destination)).map pathDepth := by
      simp [List.map_map, Function.comp_def]
    rw [hm, hd]
    decide

/-- C4 (as stated, refuted): two named volumes at the destination `/data` are both in the
mount list of the descriptor `generateSpec` returns. -/
theorem distinct_destinations_counterexample :
    ∃ b, generateSpec quietWorld twoVolumesContainer = .ok b ∧
      ¬ (b.g.Mounts.map (fun m => m.Destination)).Nodup := by
  have hd : finalDestinations (generateSpec quietWorld twoVolumesContainer) =
      some ["/data", "/data"] := by decide
  cases hgen : generateSpec quietWorld twoVolumesContainer with
  | error e => rw [hgen] at hd; simp [finalDestinations] at hd
  | ok b =>
    rw [hgen] at hd
    simp only [finalDestinations, Option.some.injEq] at hd
    refine ⟨b, rfl, ?_⟩
    rw [hd]
    decide

/-- The destinations of the mount list the mount-adding steps leave (lines 127-314): those
of the mounts already in the descriptor, of every named volume, of each runtime-state bind
mount whose destination none of these claims, of every overlay volume and of every image
volume, in this order. -/
theorem addMounts_destinations (W : World) (c : Container) (execUser : ExecUser)
    (hostUID hostGID : Nat) (b b1 : Build)
    (hkeys : (c.BindMounts.map Prod.fst).Nodup)
    (h : addMounts W c execUser hostUID hostGID b = .ok b1) :
    b1.g.Mounts.map (fun m => m.Destination) =
      (b.g.Mounts.map (fun m => m.Destination) ++ c.NamedVolumes.map (fun v => v.Dest)) ++
      (c.BindMounts.map Prod.fst).filter (fun d =>
        d ∉ b.g.Mounts.map (fun m => m.Destination) ++ c.NamedVolumes.map (fun v => v.Dest)) ++
      c.OverlayVolumes.map (fun v => v.Dest) ++ c.ImageVolumes.map (fun v => v.Dest) := by
  unfold addMounts at h
  simp only [bind, Except.bind] at h
  cases h1 : addNamedVolumes W c hostUID hostGID c.NamedVolumes b with
  | error e => simp [h1] at h
  | ok b2 =>
    simp only [h1] at h
    cases h2 : normalizeMounts W execUser hostUID hostGID b2.g.Mounts with
    | error e => simp [h2] at h
    | ok mounts =>
      simp only [h2] at h
      split at h
      · cases h
      · rename_i b3 h3
        rw [addImageVolumes_dest W c _ _ _ h, addOverlayVolumes_dest W c _ _ _ _ _ h3]
        unfold addBindMounts
        rw [foldl_addBindMount_dest c _ _ hkeys]
        simp only [normalizeMounts_dest W execUser hostUID hostGID _ _ h2,
          addNamedVolumes_dest W c hostUID hostGID _ _ _ h1]

theorem addMounts_destinations_witness :
    (hostsContainer.BindMounts.map Prod.fst).Nodup ∧
    ∃ b1, addMounts quietWorld hostsContainer { Uid := 0, Gid := 0, Sgids := [], Home := "" } 0 0
        { g := hostsContainer.Spec, tmp := 0, log := [] } = .ok b1 ∧
      b1.g.Mounts.map (fun m => m.Destination) = ["/etc/hosts", "/data", "/etc/resolv.conf"] := by
  have hk : (hostsContainer.BindMounts.map Prod.fst).Nodup := by decide
  refine ⟨hk, ?_⟩
  cases hgen : addMounts quietWorld hostsContainer { Uid := 0, Gid := 0, Sgids := [], Home := "" }
      0 0 { g := hostsContainer.Spec, tmp := 0, log := [] } with
  | error e =>
    have hs : succeeds (addMounts quietWorld hostsContainer
        { Uid := 0, Gid := 0, Sgids := [], Home := "" } 0 0
        { g := hostsContainer.Spec, tmp := 0, log := [] }) = true := by decide
    rw [hgen] at hs
    simp [succeeds] at hs
  | ok b1 =>
    refine ⟨b1, rfl, ?_⟩
    rw [addMounts_destinations quietWorld hostsContainer _ 0 0 _ b1 hk hgen]
    decide
/-- C5: for a pair of the runtime state's bind-mount map, the step leaves the descriptor
(so the accumulated mount list) unchanged when a mount with that destination is in the
list, and otherwise appends exactly one bind mount with that source and destination;
the step has no error result. -/
theorem addBindMount_frame (c : Container) (b : Build) (dst src : String) :
    ((∃ m ∈ b.g.Mounts, m.Destination = dst) → (addBindMount c b dst src).g = b.g) ∧
    ((¬ ∃ m ∈ b.g.Mounts, m.Destination = dst) →
      ∃ m, (addBindMount c b dst src).g.Mounts = b.g.Mounts ++ [m] ∧
        m.Typ = "bind" ∧ m.Source = src ∧ m.Destination = dst) := by
  have hiff : MountExists b.g.Mounts dst = true ↔ ∃ m ∈ b.g.Mounts, m.Destination = dst := by
    unfold MountExists
    simp only [List.any_eq_true, decide_eq_true_eq]
  constructor
  · intro h
    have h1 := hiff.mpr h
    simp [addBindMount, h1]
  · intro h
    have h1 : ¬ MountExists b.g.Mounts dst = true := fun hm => h (hiff.mp hm)
    refine ⟨newBindMount c b.g dst src, ?_, rfl, rfl, rfl⟩
    simp [addBindMount, h1, Spec.AddMount]

theorem addBindMount_frame_witness :
    (addBindMount hostsContainer { g := hostsContainer.Spec, tmp := 0, log := [] }
      "/etc/hosts" "/run/ctr/hosts").g = hostsContainer.Spec ∧
    ∃ m, (addBindMount hostsContainer { g := hostsContainer.Spec, tmp := 0, log := [] }
        "/etc/resolv.conf" "/run/ctr/resolv.conf").g.Mounts =
        hostsContainer.Spec.Mounts ++ [m] ∧
      m.Typ = "bind" ∧ m.Source = "/run/ctr/resolv.conf" ∧ m.Destination = "/etc/resolv.conf" :=
  ⟨(addBindMount_frame hostsContainer { g := hostsContainer.Spec, tmp := 0, log := [] }
      "/etc/hosts" "/run/ctr/hosts").1 (by decide),
    (addBindMount_frame hostsContainer { g := hostsContainer.Spec, tmp := 0, log := [] }
      "/etc/resolv.conf" "/run/ctr/resolv.conf").2 (by decide)⟩

theorem lookup_of_mem_nodup (l : List (String × String)) (k v : String)
    (hk : (l.map Prod.fst).Nodup) (hm : (k, v) ∈ l) : l.lookup k = some v := by
  induction l with
  | nil => simp at hm
  | cons p rest ih =>
    obtain ⟨k1, v1⟩ := p
    simp only [List.map_cons, List.nodup_cons] at hk
    rcases List.mem_cons.mp hm with h | h
    · have h1 : k = k1 := congrArg Prod.fst h
      have h2 : v = v1 := congrArg Prod.snd h
      subst h1; subst h2
      simp [List.lookup]
    · have hne : k ≠ k1 := by
        intro e
        apply hk.1
        rw [← e]
        exact List.mem_map.mpr ⟨(k, v), h, rfl⟩
      have : (k == k1) = false := by simpa using hne
      simp only [List.lookup, this]
      exact ih hk.2 h

/-- C9: the bind mount built for a pair of the runtime state's bind-mount map has the
options `bind, rprivate, ro, nosuid, noexec, nodev` when the root is read-only and the
destination is not `/dev/shm`; `bind, rprivate, nosuid, noexec, nodev` when the destination
is `/dev/shm` and the source is the configured shm directory; `bind, rprivate` otherwise.
A bind mount at `/dev/shm` never has the option `ro`. -/
theorem newBindMount_options (c : Container) (g : Spec) (dst src : String)
    (hkeys : (c.BindMounts.map Prod.fst).Nodup) (hpair : (dst, src) ∈ c.BindMounts) :
    (newBindMount c g dst src).Options =
      (if IsReadOnly g = true ∧ dst ≠ "/dev/shm" then
        ["bind", "rprivate", "ro", "nosuid", "noexec", "nodev"]
      else if dst = "/dev/shm" ∧ src = c.ShmDir then
        ["bind", "rprivate", "nosuid", "noexec", "nodev"]
      else ["bind", "rprivate"]) ∧
    (dst = "/dev/shm" → "ro" ∉ (newBindMount c g dst src).Options) := by
  have hl := lookup_of_mem_nodup c.BindMounts dst src hkeys hpair
  by_cases hd : dst = "/dev/shm"
  · subst hd
    have hs : c.bindMountAt "/dev/shm" = src := by simp [Container.bindMountAt, hl]
    by_cases he : src = c.ShmDir
    · simp [newBindMount, hs, he]
    · simp [newBindMount, hs, he]
  · by_cases hr : IsReadOnly g = true
    · simp [newBindMount, hd, hr]
    · simp [newBindMount, hd, hr]

theorem newBindMount_options_witness :
    (shmContainer.BindMounts.map Prod.fst).Nodup ∧
    ("/dev/shm", "/static/shm") ∈ shmContainer.BindMounts ∧
    (newBindMount shmContainer shmContainer.Spec "/dev/shm" "/static/shm").Options =
      ["bind", "rprivate", "nosuid", "noexec", "nodev"] := by
  have hk : (shmContainer.BindMounts.map Prod.fst).Nodup := by decide
  have hp : ("/dev/shm", "/static/shm") ∈ shmContainer.BindMounts := by decide
  refine ⟨hk, hp, ?_⟩
  rw [(newBindMount_options shmContainer shmContainer.Spec "/dev/shm" "/static/shm" hk hp).1]
  decide
theorem normalizeOptions_result (W : World) (execUser : ExecUser) (hostUID hostGID : Nat)
    (m : Mount) (opts acc res : List String)
    (h : normalizeOptions W execUser hostUID hostGID m opts acc = .ok res) :
    res = acc ++ (opts.map (normalizedOption execUser m)).flatten := by
  induction opts generalizing acc with
  | nil =>
    simp [normalizeOptions, pure, Except.pure] at h
    simp [h]
  | cons o rest ih =>
    simp only [normalizeOptions] at h
    by_cases hU : o = "U"
    · subst hU
      by_cases ht : m.Typ = "tmpfs"
      · simp only [ht, if_true] at h
        rw [ih _ h]
        simp [normalizedOption, ht]
      · simp only [ht, if_false, if_true] at h
        cases hc : W.ChangeHostPathOwnership m.Source true hostUID hostGID with
        | error e => simp [hc] at h
        | ok u =>
          simp only [hc] at h
          rw [ih _ h]
          simp [normalizedOption, ht]
    · simp only [hU, if_false] at h
      by_cases hz : o = "z" ∨ o = "Z"
      · simp only [hz, if_true] at h
        cases hc : W.relabel m.Source W.MountLabel (IsShared o) with
        | error e => simp [hc] at h
        | ok u =>
          simp only [hc] at h
          rw [ih _ h]
          simp [normalizedOption, hz]
      · simp only [hz, if_false] at h
        rw [ih _ h]
        simp [normalizedOption, hz, hU]

theorem normalizeOptions_ok (W : World) (execUser : ExecUser) (hostUID hostGID : Nat)
    (m : Mount) (opts acc : List String)
    (hc : W.ChangeHostPathOwnership m.Source true hostUID hostGID = .ok ())
    (hr : ∀ shared, W.relabel m.Source W.MountLabel shared = .ok ()) :
    normalizeOptions W execUser hostUID hostGID m opts acc =
      .ok (acc ++ (opts.map (normalizedOption execUser m)).flatten) := by
  induction opts generalizing acc with
  | nil => simp [normalizeOptions, pure, Except.pure]
  | cons o rest ih =>
    simp only [normalizeOptions]
    by_cases hU : o = "U"
    · subst hU
      by_cases ht : m.Typ = "tmpfs"
      · simp only [ht, if_true]
        rw [ih]
        simp [normalizedOption, ht]
      · simp only [ht, if_false, if_true, hc]
        rw [ih]
        simp [normalizedOption, ht]
    · simp only [hU, if_false]
      by_cases hz : o = "z" ∨ o = "Z"
      · simp only [hz, if_true, hr]
        rw [ih]
        simp [normalizedOption, hz]
      · simp only [hz, if_false]
        rw [ih]
        simp [normalizedOption, hz, hU]

theorem normalizeMounts_result (W : World) (execUser : ExecUser) (hostUID hostGID : Nat)
    (mounts mounts1 : List Mount)
    (h : normalizeMounts W execUser hostUID hostGID mounts = .ok mounts1) :
    mounts1 = mounts.map (normalizedMount execUser) := by
  induction mounts generalizing mounts1 with
  | nil =>
    simp [normalizeMounts, pure, Except.pure] at h
    simp [h]
  | cons m rest ih =>
    simp only [normalizeMounts] at h
    cases h1 : normalizeOptions W execUser hostUID hostGID m m.Options [] with
    | error e => simp [h1] at h
    | ok options =>
      simp only [h1] at h
      cases h2 : normalizeMounts W execUser hostUID hostGID rest with
      | error e => simp [h2] at h
      | ok rest1 =>
        simp [h2, pure, Except.pure] at h
        subst h
        have := normalizeOptions_result W execUser hostUID hostGID m _ _ _ h1
        simp [ih rest1 h2, normalizedMount, this]

theorem normalizeMounts_ok (W : World) (execUser : ExecUser) (hostUID hostGID : Nat)
    (mounts : List Mount) (h : sourcesChangeable W hostUID hostGID mounts) :
    normalizeMounts W execUser hostUID hostGID mounts =
      .ok (mounts.map (normalizedMount execUser)) := by
  induction mounts with
  | nil => simp [normalizeMounts, pure, Except.pure]
  | cons m rest ih =>
    have hm := h m (List.mem_cons_self _ _)
    have hrest : sourcesChangeable W hostUID hostGID rest :=
      fun x hx => h x (List.mem_cons_of_mem _ hx)
    simp only [normalizeMounts]
    rw [normalizeOptions_ok W execUser hostUID hostGID m _ _ hm.1 hm.2, ih hrest]
    simp [normalizedMount, pure, Except.pure]

theorem normalizedOption_no_marker (execUser : ExecUser) (m : Mount) (o x : String)
    (hx : x ∈ normalizedOption execUser m o) : x ≠ "U" ∧ x ≠ "z" ∧ x ≠ "Z" := by
  have key : ∀ (p t : String), p = "uid=" ∨ p = "gid=" →
      p ++ t ≠ "U" ∧ p ++ t ≠ "z" ∧ p ++ t ≠ "Z" := by
    intro p t hp
    refine ⟨?_, ?_, ?_⟩ <;>
    · intro e
      have := congrArg String.data e
      rcases hp with hp | hp <;> subst hp <;> simp [String.data_append] at this
  unfold normalizedOption at hx
  by_cases hz : o = "z" ∨ o = "Z"
  · simp [hz] at hx
  · by_cases hU : o = "U"
    · by_cases ht : m.Typ = "tmpfs"
      · simp [hz, hU, ht] at hx
        rcases hx with hx | hx <;> subst hx
        · exact key _ _ (Or.inl rfl)
        · exact key _ _ (Or.inr rfl)
      · simp [hU, ht] at hx
    · simp only [hz, hU, if_false, List.mem_singleton] at hx
      subst hx
      push_neg at hz
      exact ⟨hU, hz.1, hz.2⟩

/-- C10: when the normalization of the mounts returns, every mount has its options with
each `z` and `Z` removed, each `U` removed for a mount that is not tmpfs or replaced in
place by `uid=<uid>` and `gid=<gid>` of the resolved user for a tmpfs mount, and every
other option kept in its place; it returns when no ownership change and no relabel
fails; and the resulting options hold no `U`, `z` or `Z`. -/
theorem normalizeMounts_options (W : World) (execUser : ExecUser) (hostUID hostGID : Nat)
    (mounts : List Mount) :
    (∀ mounts1, normalizeMounts W execUser hostUID hostGID mounts = .ok mounts1 →
      mounts1 = mounts.map (normalizedMount execUser)) ∧
    (sourcesChangeable W hostUID hostGID mounts →
      normalizeMounts W execUser hostUID hostGID mounts =
        .ok (mounts.map (normalizedMount execUser))) ∧
    (∀ m ∈ mounts.map (normalizedMount execUser),
      "U" ∉ m.Options ∧ "z" ∉ m.Options ∧ "Z" ∉ m.Options) := by
  refine ⟨fun mounts1 h => normalizeMounts_result W execUser hostUID hostGID mounts mounts1 h,
    fun h => normalizeMounts_ok W execUser hostUID hostGID mounts h, ?_⟩
  intro m1 hm1
  obtain ⟨m, _, rfl⟩ := List.mem_map.mp hm1
  have hno : ∀ x ∈ (normalizedMount execUser m).Options, x ≠ "U" ∧ x ≠ "z" ∧ x ≠ "Z" := by
    intro x hx
    simp only [normalizedMount, List.mem_flatten, List.mem_map] at hx
    obtain ⟨l, ⟨o, _, rfl⟩, hxl⟩ := hx
    exact normalizedOption_no_marker execUser m o x hxl
  exact ⟨fun h => (hno _ h).1 rfl, fun h => (hno _ h).2.1 rfl, fun h => (hno _ h).2.2 rfl⟩

theorem normalizeMounts_options_witness :
    sourcesChangeable quietWorld 0 0 markedMounts ∧
    normalizeMounts quietWorld { Uid := 1000, Gid := 100, Sgids := [], Home := "" } 0 0
        markedMounts =
      .ok [mountAt "tmpfs" "/tmp" ["rw", "uid=1000", "gid=100", "nosuid"],
        mountAt "bind" "/data" ["ro"]] := by
  have hs : sourcesChangeable quietWorld 0 0 markedMounts := fun _ _ => ⟨rfl, fun _ => rfl⟩
  refine ⟨hs, ?_⟩
  rw [(normalizeMounts_options quietWorld { Uid := 1000, Gid := 100, Sgids := [], Home := "" }
    0 0 markedMounts).2.1 hs]
  rfl
theorem wrapInt64_of_fits (x : Int) (h1 : -9223372036854775808 ≤ x)
    (h2 : x < 9223372036854775808) : wrapInt64 x = x := by
  unfold wrapInt64
  omega

theorem isGIDAvailable_iff (gidMappings : List IDMap) (gid : Int) (hfit : endsFit gidMappings) :
    isGIDAvailable gidMappings gid = true ↔ inDomain gidMappings gid := by
  unfold isGIDAvailable inDomain
  simp only [List.any_eq_true, decide_eq_true_eq]
  constructor
  · rintro ⟨m, hm, h1, h2⟩
    rw [wrapInt64_of_fits _ (hfit m hm).1 (hfit m hm).2] at h2
    exact ⟨m, hm, h1, h2⟩
  · rintro ⟨m, hm, h1, h2⟩
    refine ⟨m, hm, h1, ?_⟩
    rw [wrapInt64_of_fits _ (hfit m hm).1 (hfit m hm).2]
    exact h2

theorem mem_AddProcessAdditionalGid (g : Spec) (gid x : Nat) :
    x ∈ (g.AddProcessAdditionalGid gid).AdditionalGids ↔ x ∈ g.AdditionalGids ∨ x = gid := by
  unfold Spec.AddProcessAdditionalGid
  by_cases h : gid ∈ g.AdditionalGids
  · simp only [h, if_true]
    constructor
    · exact Or.inl
    · rintro (h1 | h1)
      · exact h1
      · rw [h1]; exact h
  · simp [h]

theorem foldl_addSupplementalGid (gidMappings : List IDMap) (hfit : endsFit gidMappings)
    (sgids : List Int) (b : Build) :
    (∀ x, x ∈ (sgids.foldl (addSupplementalGid gidMappings) b).g.AdditionalGids ↔
      x ∈ b.g.AdditionalGids ∨ ∃ gid ∈ sgids, inDomain gidMappings gid ∧ toUint32 gid = x) ∧
    (sgids.foldl (addSupplementalGid gidMappings) b).log =
      b.log ++ (sgids.filter (fun gid => ¬ inDomain gidMappings gid)).map gidWarning := by
  induction sgids generalizing b with
  | nil => simp
  | cons gid rest ih =>
    simp only [List.foldl_cons]
    obtain ⟨ih1, ih2⟩ := ih (addSupplementalGid gidMappings b gid)
    by_cases hd : inDomain gidMappings gid
    · have ha := (isGIDAvailable_iff gidMappings gid hfit).mpr hd
      have hstep : addSupplementalGid gidMappings b gid =
          { b with g := b.g.AddProcessAdditionalGid (toUint32 gid) } := by
        simp [addSupplementalGid, ha]
      rw [hstep] at ih1 ih2
      constructor
      · intro x
        rw [hstep, ih1 x]
        simp only [mem_AddProcessAdditionalGid, List.exists_mem_cons_iff]
        constructor
        · rintro ((h | h) | h)
          · exact Or.inl h
          · exact Or.inr (Or.inl ⟨hd, h.symm⟩)
          · exact Or.inr (Or.inr h)
        · rintro (h | ⟨_, h⟩ | h)
          · exact Or.inl (Or.inl h)
          · exact Or.inl (Or.inr h.symm)
          · exact Or.inr h
      · rw [hstep, ih2]
        simp [hd]
    · have ha : ¬ isGIDAvailable gidMappings gid = true :=
        fun h => hd ((isGIDAvailable_iff gidMappings gid hfit).mp h)
      have hstep : addSupplementalGid gidMappings b gid =
          { b with log := b.log ++ [gidWarning gid] } := by
        simp [addSupplementalGid, ha]
      rw [hstep] at ih1 ih2
      constructor
      · intro x
        rw [hstep, ih1 x]
        simp only [List.exists_mem_cons_iff]
        constructor
        · rintro (h | h)
          · exact Or.inl h
          · exact Or.inr (Or.inr h)
        · rintro (h | ⟨h, _⟩ | h)
          · exact Or.inl h
          · exact absurd h hd
          · exact Or.inr h
      · rw [hstep, ih2]
        simp [hd]

/-- C6: when the user string has no `:`, for every GID-mapping domain whose entries end
within the 64-bit range, the supplemental-group step returns without error; a gid is among
the additional gids afterwards if and only if it was there before or it is the gid of a
supplemental group that some domain entry holds (`containerID <= gid < containerID + size`);
and exactly the groups outside the domain are logged as skipped. -/
theorem supplementalGroups_filtered (W : World) (c : Container) (execUser : ExecUser)
    (b : Build) (gidMappings : List IDMap)
    (huser : containsColon c.User = false)
    (hdom : gidMappingsFor W c = .ok gidMappings)
    (hfit : endsFit gidMappings) :
    ∃ b1, addSupplementalGroups W c execUser b = .ok b1 ∧
      (∀ x, x ∈ b1.g.AdditionalGids ↔
        x ∈ b.g.AdditionalGids ∨
          ∃ gid ∈ execUser.Sgids, inDomain gidMappings gid ∧ toUint32 gid = x) ∧
      b1.log = b.log ++
        (execUser.Sgids.filter (fun gid => ¬ inDomain gidMappings gid)).map gidWarning := by
  refine ⟨execUser.Sgids.foldl (addSupplementalGid gidMappings) b, ?_, ?_⟩
  · simp [addSupplementalGroups, huser, hdom, pure, Except.pure]
  · exact foldl_addSupplementalGid gidMappings hfit execUser.Sgids b

theorem supplementalGroups_filtered_witness :
    containsColon mappedContainer.User = false ∧
    gidMappingsFor quietWorld mappedContainer =
      .ok [{ ContainerID := 0, HostID := 0, Size := 1000 }] ∧
    endsFit [{ ContainerID := 0, HostID := 0, Size := 1000 }] ∧
    ∃ b1, addSupplementalGroups quietWorld mappedContainer
        { Uid := 1000, Gid := 1000, Sgids := [50, 2000], Home := "" }
        { g := emptySpec, tmp := 0, log := [] } = .ok b1 ∧
      (50 ∈ b1.g.AdditionalGids ∧ 2000 ∉ b1.g.AdditionalGids) ∧
      b1.log = [gidWarning 2000] := by
  have h1 : containsColon mappedContainer.User = false := by decide
  have h2 : gidMappingsFor quietWorld mappedContainer =
      .ok [{ ContainerID := 0, HostID := 0, Size := 1000 }] := rfl
  have h3 : endsFit [{ ContainerID := 0, HostID := 0, Size := 1000 }] := by
    intro m hm
    simp only [List.mem_singleton] at hm
    subst hm
    decide
  obtain ⟨b1, hb, hmem, hlog⟩ := supplementalGroups_filtered quietWorld mappedContainer
    { Uid := 1000, Gid := 1000, Sgids := [50, 2000], Home := "" }
    { g := emptySpec, tmp := 0, log := [] } _ h1 h2 h3
  refine ⟨h1, h2, h3, b1, hb, ⟨?_, ?_⟩, ?_⟩
  · rw [hmem]
    right
    exact ⟨50, by simp, by decide, by decide⟩
  · rw [hmem]
    rintro (h | ⟨gid, hg, hd, he⟩)
    · simp [emptySpec] at h
    · simp only [List.mem_cons, List.mem_singleton, List.not_mem_nil, or_false] at hg
      rcases hg with hg | hg <;> subst hg
      · revert he; decide
      · revert hd; decide
  · rw [hlog]
    decide
theorem addNamespaceContainer_mappings (W : World) (g g1 : Spec) (ctr kind : String)
    (h : addNamespaceContainer W g ctr kind = .ok g1) :
    g1.UIDMappings = g.UIDMappings ∧ g1.GIDMappings = g.GIDMappings := by
  unfold addNamespaceContainer at h
  cases hp : W.NamespacePath ctr kind with
  | error e => simp [hp] at h
  | ok nsPath =>
    simp only [hp, Spec.AddOrReplaceLinuxNamespace] at h
    by_cases hk : kind ∈ validNamespaces
    · simp [hk, pure, Except.pure] at h
      subst h
      exact ⟨rfl, rfl⟩
    · simp [hk, throw, throwThe, MonadExceptOf.throw] at h

/-- C7: when the user namespace of another container is joined (`UserNsCtr` is not empty
and the join succeeds) and the descriptor has no UID mapping and no GID mapping, the join
step returns a descriptor whose UID mappings and GID mappings are each the one entry with
container ID 0, host ID 0 and size 1. -/
theorem joinUserNamespace_placeholder (W : World) (c : Container) (g g1 : Spec)
    (hctr : c.UserNsCtr ≠ "")
    (hjoin : addNamespaceContainer W g c.UserNsCtr "user" = .ok g1)
    (huid : g.UIDMappings = []) (hgid : g.GIDMappings = []) :
    ∃ g2, joinUserNamespace W c g = .ok g2 ∧
      g2.UIDMappings = [{ ContainerID := 0, HostID := 0, Size := 1 }] ∧
      g2.GIDMappings = [{ ContainerID := 0, HostID := 0, Size := 1 }] := by
  obtain ⟨h1, h2⟩ := addNamespaceContainer_mappings W g g1 _ _ hjoin
  rw [huid] at h1
  rw [hgid] at h2
  refine ⟨(g1.AddLinuxUIDMapping 0 0 1).AddLinuxGIDMapping 0 0 1, ?_, ?_, ?_⟩
  · simp [joinUserNamespace, hctr, hjoin, h1, pure, Except.pure]
  · simp [Spec.AddLinuxUIDMapping, Spec.AddLinuxGIDMapping, h1]
  · simp [Spec.AddLinuxUIDMapping, Spec.AddLinuxGIDMapping, h2]

theorem joinUserNamespace_placeholder_witness :
    joiningContainer.UserNsCtr ≠ "" ∧
    succeeds (addNamespaceContainer quietWorld emptySpec joiningContainer.UserNsCtr "user") = true ∧
    emptySpec.UIDMappings = [] ∧ emptySpec.GIDMappings = [] ∧
    ∃ g2, joinUserNamespace quietWorld joiningContainer emptySpec = .ok g2 ∧
      g2.UIDMappings = [{ ContainerID := 0, HostID := 0, Size := 1 }] ∧
      g2.GIDMappings = [{ ContainerID := 0, HostID := 0, Size := 1 }] := by
  have hc : joiningContainer.UserNsCtr ≠ "" := by decide
  have hs : succeeds (addNamespaceContainer quietWorld emptySpec joiningContainer.UserNsCtr
      "user") = true := by decide
  refine ⟨hc, hs, rfl, rfl, ?_⟩
  cases hj : addNamespaceContainer quietWorld emptySpec joiningContainer.UserNsCtr "user" with
  | error e => rw [hj] at hs; simp [succeeds] at hs
  | ok g1 => exact joinUserNamespace_placeholder quietWorld joiningContainer emptySpec g1 hc hj rfl rfl

theorem mem_setEnv_entry (name entry : String) (env : List String) :
    entry ∈ setEnv name entry env := by
  induction env with
  | nil => simp [setEnv]
  | cons e es ih =>
    unfold setEnv
    by_cases h : envKey e = name
    · simp [h]
    · simp [h, ih]

theorem mem_setEnv_of_mem (name entry x : String) (env : List String) (hx : x ∈ env)
    (hk : envKey x ≠ name) : x ∈ setEnv name entry env := by
  induction env with
  | nil => simp at hx
  | cons e es ih =>
    unfold setEnv
    by_cases h : envKey e = name
    · simp only [h, if_true]
      rcases List.mem_cons.mp hx with hxe | hxe
      · subst hxe; exact absurd h hk
      · exact List.mem_cons_of_mem _ hxe
    · simp only [h, if_false]
      rcases List.mem_cons.mp hx with hxe | hxe
      · subst hxe; exact List.mem_cons_self _ _
      · exact List.mem_cons_of_mem _ (ih hxe)

theorem mem_AddProcessEnv_entry (g : Spec) (name value : String) (hn : name ≠ "") :
    name ++ "=" ++ value ∈ (g.AddProcessEnv name value).Env := by
  simp [Spec.AddProcessEnv, hn, mem_setEnv_entry]

theorem mem_AddProcessEnv_of_mem (g : Spec) (name value x : String) (hx : x ∈ g.Env)
    (hk : envKey x ≠ name) : x ∈ (g.AddProcessEnv name value).Env := by
  unfold Spec.AddProcessEnv
  by_cases hn : name = ""
  · simp [hn, hx]
  · simp only [hn, if_false]
    exact mem_setEnv_of_mem _ _ _ _ hx hk

theorem beforeEq_append (p rest : List Char) (hp : '=' ∉ p) :
    beforeEq (p ++ '=' :: rest) = p := by
  induction p with
  | nil => simp [beforeEq]
  | cons ch p ih =>
    simp only [List.mem_cons, not_or] at hp
    have hne : ch ≠ '=' := fun e => hp.1 e.symm
    simp [beforeEq, hne, ih hp.2]

theorem envKey_entry (name value : String) (hn : '=' ∉ name.data) :
    envKey (name ++ "=" ++ value) = name := by
  unfold envKey
  have : (name ++ "=" ++ value).data = name.data ++ '=' :: value.data := by
    simp [String.data_append]
  rw [this, beforeEq_append _ _ hn]

theorem passListenKey_eq (W : World) (g : Spec) (key : String) :
    passListenKey W g key =
      match W.LookupEnv key with
      | some val => g.AddProcessEnv key (if key = "LISTEN_PID" then "1" else val)
      | none => g := by
  unfold passListenKey
  cases W.LookupEnv key <;> rfl

/-- C8: the `LISTEN_*` loop injects, in this order, `LISTEN_PID` with the value `1` when it
is set in the calling environment, whatever its value, and `LISTEN_FDS` and `LISTEN_FDNAMES`
with their own values when they are set; a variable that is not set is not injected. The
environment of the descriptor then has the entry `LISTEN_PID=1`, and the entries of
`LISTEN_FDS` and `LISTEN_FDNAMES` with their values. -/
theorem listenEnv_injected (W : World) (g : Spec) :
    passListenEnv W g = (listenInjected W).foldl (fun g kv => g.AddProcessEnv kv.1 kv.2) g ∧
    (∀ v, W.LookupEnv "LISTEN_PID" = some v → "LISTEN_PID=1" ∈ (passListenEnv W g).Env) ∧
    (∀ v, W.LookupEnv "LISTEN_FDS" = some v →
      "LISTEN_FDS=" ++ v ∈ (passListenEnv W g).Env) ∧
    (∀ v, W.LookupEnv "LISTEN_FDNAMES" = some v →
      "LISTEN_FDNAMES=" ++ v ∈ (passListenEnv W g).Env) := by
  have hfold : passListenEnv W g =
      (listenInjected W).foldl (fun g kv => g.AddProcessEnv kv.1 kv.2) g := by
    unfold passListenEnv listenInjected
    simp only [List.foldl_cons, List.foldl_nil, passListenKey_eq]
    cases W.LookupEnv "LISTEN_PID" <;> cases W.LookupEnv "LISTEN_FDS" <;>
      cases W.LookupEnv "LISTEN_FDNAMES" <;> simp
  have kPID : envKey "LISTEN_PID=1" = "LISTEN_PID" := by decide
  have kFDS : ∀ v, envKey ("LISTEN_FDS=" ++ v) = "LISTEN_FDS" :=
    fun v => envKey_entry "LISTEN_FDS" v (by decide)
  have step : ∀ (g : Spec) (key x : String), x ∈ g.Env → envKey x ≠ key →
      x ∈ (passListenKey W g key).Env := by
    intro g key x hx hk
    rw [passListenKey_eq]
    cases W.LookupEnv key with
    | none => exact hx
    | some val => exact mem_AddProcessEnv_of_mem _ _ _ _ hx hk
  refine ⟨hfold, ?_, ?_, ?_⟩
  · intro v hv
    unfold passListenEnv
    simp only [List.foldl_cons, List.foldl_nil]
    apply step _ _ _ _ (by rw [kPID]; decide)
    apply step _ _ _ _ (by rw [kPID]; decide)
    rw [passListenKey_eq, hv]
    exact mem_AddProcessEnv_entry g "LISTEN_PID" "1" (by decide)
  · intro v hv
    unfold passListenEnv
    simp only [List.foldl_cons, List.foldl_nil]
    apply step _ _ _ _ (by rw [kFDS]; decide)
    rw [passListenKey_eq, hv]
    exact mem_AddProcessEnv_entry _ "LISTEN_FDS" v (by decide)
  · intro v hv
    unfold passListenEnv
    simp only [List.foldl_cons, List.foldl_nil]
    rw [passListenKey_eq, hv]
    exact mem_AddProcessEnv_entry _ "LISTEN_FDNAMES" v (by decide)

theorem listenEnv_injected_witness :
    activatedWorld.LookupEnv "LISTEN_PID" = some "4821" ∧
    listenInjected activatedWorld = [("LISTEN_PID", "1"), ("LISTEN_FDS", "2")] ∧
    "LISTEN_PID=1" ∈ (passListenEnv activatedWorld emptySpec).Env :=
  ⟨rfl, by decide,
    (listenEnv_injected activatedWorld emptySpec).2.1 "4821" rfl⟩

/-! ## Theorems: the ID mappings -/

theorem foldl_AddLinuxUIDMapping (table : List IDMap) (g : Spec) :
    (table.foldl (fun g uidmap => g.AddLinuxUIDMapping (toUint32 uidmap.HostID)
        (toUint32 uidmap.ContainerID) (toUint32 uidmap.Size)) g) =
      { g with UIDMappings := g.UIDMappings ++ rebuiltMappings table } := by
  induction table generalizing g with
  | nil => simp [rebuiltMappings]
  | cons m rest ih =>
    simp only [List.foldl_cons]
    rw [ih]
    simp [Spec.AddLinuxUIDMapping, rebuiltMappings]

theorem foldl_AddLinuxGIDMapping (table : List IDMap) (g : Spec) :
    (table.foldl (fun g gidmap => g.AddLinuxGIDMapping (toUint32 gidmap.HostID)
        (toUint32 gidmap.ContainerID) (toUint32 gidmap.Size)) g) =
      { g with GIDMappings := g.GIDMappings ++ rebuiltMappings table } := by
  induction table generalizing g with
  | nil => simp [rebuiltMappings]
  | cons m rest ih =>
    simp only [List.foldl_cons]
    rw [ih]
    simp [Spec.AddLinuxGIDMapping, rebuiltMappings]

/-- The result of the rebuild for an automatic user namespace. -/
theorem autoUserNamespace_eq (c : Container) (g : Spec) (hctr : c.UserNsCtr = "")
    (hauto : c.IDMappings.AutoUserNs = true) :
    autoUserNamespace c g = .ok
      { g with
        Namespaces := setNamespace { Typ := "user", Path := "" } g.Namespaces
        UIDMappings := rebuiltMappings c.IDMappings.UIDMap
        GIDMappings := rebuiltMappings c.IDMappings.GIDMap } := by
  have hv : "user" ∈ validNamespaces := by decide
  unfold autoUserNamespace
  simp only [hctr, hauto, and_self, if_true, Spec.AddOrReplaceLinuxNamespace, hv, pure,
    Except.pure]
  rw [foldl_AddLinuxUIDMapping, foldl_AddLinuxGIDMapping]
  simp [Spec.ClearLinuxUIDMappings, Spec.ClearLinuxGIDMappings]

theorem autoUserNamespace_off (c : Container) (g : Spec)
    (h : ¬ (c.UserNsCtr = "" ∧ c.IDMappings.AutoUserNs = true)) :
    autoUserNamespace c g = .ok g := by
  unfold autoUserNamespace
  simp only [h, if_false, pure, Except.pure]

theorem toUint32_of_range (x : Int) (h1 : 0 ≤ x) (h2 : x < 4294967296) :
    ((toUint32 x : Nat) : Int) = x := by
  unfold toUint32
  rw [Int.emod_eq_of_lt h1 h2]
  exact Int.toNat_of_nonneg h1

theorem asIDMap_rebuiltMappings (table : List IDMap) (h : idsInRange table) :
    (rebuiltMappings table).map asIDMap = table := by
  induction table with
  | nil => rfl
  | cons m rest ih =>
    have hm := h m (List.mem_cons_self _ _)
    have hrest : idsInRange rest := fun x hx => h x (List.mem_cons_of_mem _ hx)
    have ih2 := ih hrest
    unfold rebuiltMappings at ih2 ⊢
    simp only [List.map_cons, ih2, asIDMap]
    rw [toUint32_of_range _ hm.1.1 hm.1.2, toUint32_of_range _ hm.2.1.1 hm.2.1.2,
      toUint32_of_range _ hm.2.2.1 hm.2.2.2]

/-- C11: when no user-namespace source container is configured, auto-user-namespace mode
is enabled and the configured tables hold 32-bit IDs, the rebuild step returns a
descriptor whose UID mappings are, entry for entry and in the same order, the configured
UID table (same container ID, host ID and size), whatever mappings the descriptor had
before; likewise the GID mappings and the configured GID table. -/
theorem autoUserNamespace_rebuild (c : Container) (g : Spec) (hctr : c.UserNsCtr = "")
    (hauto : c.IDMappings.AutoUserNs = true) (huid : idsInRange c.IDMappings.UIDMap)
    (hgid : idsInRange c.IDMappings.GIDMap) :
    ∃ g1, autoUserNamespace c g = .ok g1 ∧
      g1.UIDMappings.map asIDMap = c.IDMappings.UIDMap ∧
      g1.GIDMappings.map asIDMap = c.IDMappings.GIDMap :=
  ⟨_, autoUserNamespace_eq c g hctr hauto, asIDMap_rebuiltMappings _ huid,
    asIDMap_rebuiltMappings _ hgid⟩

theorem autoUserNamespace_rebuild_witness :
    autoContainer.UserNsCtr = "" ∧ autoContainer.IDMappings.AutoUserNs = true ∧
    idsInRange autoContainer.IDMappings.UIDMap ∧ idsInRange autoContainer.IDMappings.GIDMap ∧
    ∃ g1, autoUserNamespace autoContainer
        { emptySpec with UIDMappings := [{ ContainerID := 0, HostID := 0, Size := 1 }] } = .ok g1 ∧
      g1.UIDMappings.map asIDMap = [{ ContainerID := 0, HostID := 0, Size := 65537 }] ∧
      g1.GIDMappings.map asIDMap = [{ ContainerID := 0, HostID := 0, Size := 65537 }] := by
  have hr : idsInRange [({ ContainerID := 0, HostID := 0, Size := 65537 } : IDMap)] := by
    intro m hm
    simp only [List.mem_singleton] at hm
    subst hm
    decide
  exact ⟨rfl, rfl, hr, hr,
    autoUserNamespace_rebuild autoContainer _ rfl rfl hr hr⟩

theorem gidMappingsFor_privileged (W : World) (c : Container)
    (hmap : c.IDMappings.GIDMap = []) (hroot : W.IsRootless = false) :
    gidMappingsFor W c = .ok [{ ContainerID := 0, HostID := 0, Size := 2147483647 }] := by
  simp [gidMappingsFor, hmap, hroot, pure, Except.pure]

theorem endsFit_privileged :
    endsFit [{ ContainerID := 0, HostID := 0, Size := 2147483647 }] := by
  intro m hm
  simp only [List.mem_singleton] at hm
  subst hm
  decide

theorem inDomain_privileged (gid : Int) :
    inDomain [{ ContainerID := 0, HostID := 0, Size := 2147483647 }] gid ↔
      0 ≤ gid ∧ gid < 2147483647 := by
  simp [inDomain]

/-- C12 (as stated, refuted): in the privileged case a supplemental group with the gid
4294967294, which is below 2^32, is not added to the additional gids; it is logged as
skipped. -/
theorem privileged_domain_counterexample :
    plainContainer.IDMappings.GIDMap = [] ∧ quietWorld.IsRootless = false ∧
    (0 : Int) ≤ 4294967294 ∧ (4294967294 : Int) < 4294967296 ∧
    ∃ b1, addSupplementalGroups quietWorld plainContainer highGroupUser
        { g := emptySpec, tmp := 0, log := [] } = .ok b1 ∧
      toUint32 4294967294 ∉ b1.g.AdditionalGids ∧ b1.log = [gidWarning 4294967294] := by
  refine ⟨rfl, rfl, by decide, by decide, _, rfl, ?_, ?_⟩
  · decide
  · decide

/-- C12 (amended): in the privileged case (no GID mapping configured, not rootless) the
GID-availability domain is the single entry with container ID 0, host ID 0 and size
`2^31 - 1`; when the user string has no `:`, the supplemental-group step returns without
error, a gid is among the additional gids afterwards if and only if it was there before
or it is the gid of a resolved supplemental group with `0 <= gid < 2^31 - 1`, and exactly
the groups outside this range are logged as skipped. -/
theorem privileged_domain_exact (W : World) (c : Container) (execUser : ExecUser)
    (b : Build) (huser : containsColon c.User = false)
    (hmap : c.IDMappings.GIDMap = []) (hroot : W.IsRootless = false) :
    gidMappingsFor W c = .ok [{ ContainerID := 0, HostID := 0, Size := 2147483647 }] ∧
    ∃ b1, addSupplementalGroups W c execUser b = .ok b1 ∧
      (∀ x, x ∈ b1.g.AdditionalGids ↔
        x ∈ b.g.AdditionalGids ∨
          ∃ gid ∈ execUser.Sgids, (0 ≤ gid ∧ gid < 2147483647) ∧ toUint32 gid = x) ∧
      b1.log = b.log ++
        (execUser.Sgids.filter (fun gid => ¬ (0 ≤ gid ∧ gid < 2147483647))).map gidWarning := by
  have hdom := gidMappingsFor_privileged W c hmap hroot
  obtain ⟨hmem, hlog⟩ := foldl_addSupplementalGid _ endsFit_privileged execUser.Sgids b
  refine ⟨hdom, execUser.Sgids.foldl
    (addSupplementalGid [{ ContainerID := 0, HostID := 0, Size := 2147483647 }]) b, ?_, ?_, ?_⟩
  · simp [addSupplementalGroups, huser, hdom, pure, Except.pure]
  · intro x
    rw [hmem x]
    simp only [inDomain_privileged]
  · rw [hlog]
    simp only [inDomain_privileged]

theorem privileged_domain_exact_witness :
    containsColon plainContainer.User = false ∧ plainContainer.IDMappings.GIDMap = [] ∧
    quietWorld.IsRootless = false ∧
    ∃ b1, addSupplementalGroups quietWorld plainContainer
        { Uid := 1000, Gid := 1000, Sgids := [50, 2147483646, 2147483647], Home := "" }
        { g := emptySpec, tmp := 0, log := [] } = .ok b1 ∧
      50 ∈ b1.g.AdditionalGids ∧ 2147483646 ∈ b1.g.AdditionalGids ∧
      2147483647 ∉ b1.g.AdditionalGids ∧ b1.log = [gidWarning 2147483647] := by
  have hu : containsColon plainContainer.User = false := by decide
  obtain ⟨_, b1, hb, hmem, hlog⟩ := privileged_domain_exact quietWorld plainContainer
    { Uid := 1000, Gid := 1000, Sgids := [50, 2147483646, 2147483647], Home := "" }
    { g := emptySpec, tmp := 0, log := [] } hu rfl rfl
  refine ⟨hu, rfl, rfl, b1, hb, ?_, ?_, ?_, ?_⟩
  · rw [hmem]
    exact Or.inr ⟨50, by simp, by decide, by decide⟩
  · rw [hmem]
    exact Or.inr ⟨2147483646, by simp, by decide, by decide⟩
  · rw [hmem]
    rintro (h | ⟨gid, hg, hr, he⟩)
    · simp [emptySpec] at h
    · simp only [List.mem_cons, List.mem_singleton, List.not_mem_nil, or_false] at hg
      rcases hg with hg | hg | hg <;> subst hg
      · revert he; decide
      · revert he; decide
      · revert hr; decide
  · rw [hlog]
    decide

theorem AddProcessEnv_mappings (g : Spec) (name value : String) :
    (g.AddProcessEnv name value).UIDMappings = g.UIDMappings ∧
    (g.AddProcessEnv name value).GIDMappings = g.GIDMappings := by
  unfold Spec.AddProcessEnv
  by_cases h : name = "" <;> simp [h]

theorem setHostname_mappings (W : World) (c : Container) (g g1 : Spec)
    (h : setHostname W c g = .ok g1) :
    g1.UIDMappings = g.UIDMappings ∧ g1.GIDMappings = g.GIDMappings := by
  unfold setHostname at h
  simp only [bind, Except.bind, pure, Except.pure] at h
  cases hf : g.Namespaces.any (fun i => decide (i.Typ = "uts" ∧ i.Path = "")) with
  | true =>
    simp only [hf, not_true_eq_false, if_false, if_true, Except.ok.injEq] at h
    subst h
    split
    · exact AddProcessEnv_mappings _ _ _
    · exact ⟨rfl, rfl⟩
  | false =>
    simp only [hf, Bool.false_eq_true, not_false_eq_true, if_true, if_false] at h
    cases hh : W.Hostname with
    | error e => simp [hh] at h
    | ok hostname =>
      simp only [hh, Except.ok.injEq] at h
      subst h
      split
      · exact AddProcessEnv_mappings _ _ _
      · exact ⟨rfl, rfl⟩

theorem joinNamespace_mappings (W : World) (ctr kind : String) (g g1 : Spec)
    (h : joinNamespace W ctr kind g = .ok g1) :
    g1.UIDMappings = g.UIDMappings ∧ g1.GIDMappings = g.GIDMappings := by
  unfold joinNamespace at h
  by_cases hc : ctr = ""
  · simp [hc, pure, Except.pure] at h
    subst h
    exact ⟨rfl, rfl⟩
  · simp only [hc, ne_eq, not_false_eq_true, if_true] at h
    exact addNamespaceContainer_mappings W g g1 ctr kind h

theorem fitMappings_available (W : World) (g g1 : Spec) (availableUIDs availableGIDs : List IDMap)
    (havail : W.GetAvailableIDMaps = .ok (availableUIDs, availableGIDs))
    (h : fitMappings W g = .ok g1) :
    g1.UIDMappings = W.MaybeSplitMappings g.UIDMappings availableUIDs ∧
    g1.GIDMappings = W.MaybeSplitMappings g.GIDMappings availableGIDs := by
  unfold fitMappings at h
  simp only [havail, pure, Except.pure, Except.ok.injEq] at h
  subst h
  exact ⟨rfl, rfl⟩

/-- C13 (as stated, refuted): on a host where the availability query succeeds and the
fitting splits the mapping `0 0 65537`, a container in auto-user-namespace mode with this
mapping configured gets it back unsplit: the returned UID and GID mappings are the rebuilt
tables, not the fitting of them. -/
theorem fitting_last_counterexample :
    succeeds splittingWorld.GetAvailableIDMaps = true ∧
    ∃ b, generateSpec splittingWorld autoContainer = .ok b ∧
      b.g.UIDMappings = [{ ContainerID := 0, HostID := 0, Size := 65537 }] ∧
      b.g.GIDMappings = [{ ContainerID := 0, HostID := 0, Size := 65537 }] ∧
      b.g.UIDMappings ≠
        splittingWorld.MaybeSplitMappings (rebuiltMappings autoContainer.IDMappings.UIDMap)
          [{ ContainerID := 0, HostID := 1000, Size := 1 },
            { ContainerID := 1, HostID := 100000, Size := 65536 }] ∧
      b.g.GIDMappings ≠
        splittingWorld.MaybeSplitMappings (rebuiltMappings autoContainer.IDMappings.GIDMap)
          [{ ContainerID := 0, HostID := 1000, Size := 1 },
            { ContainerID := 1, HostID := 100000, Size := 65536 }] := by
  have hu : finalUIDMappings (generateSpec splittingWorld autoContainer) =
      some [{ ContainerID := 0, HostID := 0, Size := 65537 }] := by decide
  have hg : finalGIDMappings (generateSpec splittingWorld autoContainer) =
      some [{ ContainerID := 0, HostID := 0, Size := 65537 }] := by decide
  refine ⟨by decide, ?_⟩
  cases hgen : generateSpec splittingWorld autoContainer with
  | error e => rw [hgen] at hu; simp [finalUIDMappings] at hu
  | ok b =>
    rw [hgen] at hu hg
    simp only [finalUIDMappings, finalGIDMappings, Option.some.injEq] at hu hg
    refine ⟨b, rfl, hu, hg, ?_, ?_⟩
    · rw [hu]; decide
    · rw [hg]; decide

/-- C13 (amended): whenever the availability query succeeds and the steps of lines 423-503
return, the UID and GID mappings they leave are, outside auto-user-namespace mode, the
fitting (`MaybeSplitMappings` against the available ranges) of the mappings as they stand
after the user-namespace-join placeholder, and no later step changes them; in
auto-user-namespace mode (no user-namespace source container) they are the tables rebuilt
after the fitting step, as rebuilt. -/
theorem mappingSteps_mappings (W : World) (c : Container) (g g1 : Spec)
    (availableUIDs availableGIDs : List IDMap)
    (havail : W.GetAvailableIDMaps = .ok (availableUIDs, availableGIDs))
    (h : mappingSteps W c g = .ok g1) :
    ∃ g0, joinUserNamespace W c g = .ok g0 ∧
      (¬ (c.UserNsCtr = "" ∧ c.IDMappings.AutoUserNs = true) →
        g1.UIDMappings = W.MaybeSplitMappings g0.UIDMappings availableUIDs ∧
        g1.GIDMappings = W.MaybeSplitMappings g0.GIDMappings availableGIDs) ∧
      (c.UserNsCtr = "" ∧ c.IDMappings.AutoUserNs = true →
        g1.UIDMappings = rebuiltMappings c.IDMappings.UIDMap ∧
        g1.GIDMappings = rebuiltMappings c.IDMappings.GIDMap) := by
  unfold mappingSteps at h
  simp only [bind, Except.bind] at h
  cases h0 : joinUserNamespace W c g with
  | error e => simp [h0] at h
  | ok g0 =>
    simp only [h0] at h
    cases hfit : fitMappings W g0 with
    | error e => simp [hfit] at h
    | ok g2 =>
      simp only [hfit] at h
      cases hhost : setHostname W c g2 with
      | error e => simp [hhost] at h
      | ok g3 =>
        simp only [hhost] at h
        cases huts : joinNamespace W c.UTSNsCtr "uts" g3 with
        | error e => simp [huts] at h
        | ok g4 =>
          simp only [huts] at h
          cases hcg : joinNamespace W c.CgroupNsCtr "cgroup" g4 with
          | error e => simp [hcg] at h
          | ok g5 =>
            simp only [hcg] at h
            have e2 := fitMappings_available W g0 g2 _ _ havail hfit
            have e3 := setHostname_mappings W c g2 g3 hhost
            have e4 := joinNamespace_mappings W _ _ g3 g4 huts
            have e5 := joinNamespace_mappings W _ _ g4 g5 hcg
            refine ⟨g0, rfl, ?_, ?_⟩
            · intro hoff
              rw [autoUserNamespace_off c g5 hoff] at h
              simp only [Except.ok.injEq] at h
              subst h
              exact ⟨by rw [e5.1, e4.1, e3.1, e2.1], by rw [e5.2, e4.2, e3.2, e2.2]⟩
            · intro hon
              rw [autoUserNamespace_eq c g5 hon.1 hon.2] at h
              simp only [Except.ok.injEq] at h
              subst h
              exact ⟨rfl, rfl⟩

theorem mappingSteps_mappings_witness :
    splittingWorld.GetAvailableIDMaps =
      .ok ([{ ContainerID := 0, HostID := 1000, Size := 1 },
            { ContainerID := 1, HostID := 100000, Size := 65536 }],
           [{ ContainerID := 0, HostID := 1000, Size := 1 },
            { ContainerID := 1, HostID := 100000, Size := 65536 }]) ∧
    ∃ g1, mappingSteps splittingWorld plainContainer mappedSpec = .ok g1 ∧
      g1.UIDMappings = [{ ContainerID := 0, HostID := 0, Size := 1 },
        { ContainerID := 1, HostID := 1, Size := 65536 }] ∧
      g1.GIDMappings = [{ ContainerID := 0, HostID := 0, Size := 1 },
        { ContainerID := 1, HostID := 1, Size := 65536 }] := by
  refine ⟨rfl, ?_⟩
  cases hm : mappingSteps splittingWorld plainContainer mappedSpec with
  | error e =>
    have hs : succeeds (mappingSteps splittingWorld plainContainer mappedSpec) = true := by
      decide
    rw [hm] at hs
    simp [succeeds] at hs
  | ok g1 =>
    obtain ⟨g0, hj, hoff, _⟩ := mappingSteps_mappings splittingWorld plainContainer mappedSpec g1
      _ _ rfl hm
    have hg0 : g0 = mappedSpec := by
      have : joinUserNamespace splittingWorld plainContainer mappedSpec = .ok mappedSpec := rfl
      rw [this] at hj
      simp only [Except.ok.injEq] at hj
      exact hj.symm
    have hno : ¬ (plainContainer.UserNsCtr = "" ∧ plainContainer.IDMappings.AutoUserNs = true) := by
      decide
    obtain ⟨h1, h2⟩ := hoff hno
    subst hg0
    refine ⟨g1, rfl, ?_, ?_⟩
    · rw [h1]; decide
    · rw [h2]; decide

/-! ## Lemmas: the mounts through generateSpec -/

theorem bind_eq_ok {ε α β : Type} {x : Except ε α} {f : α → Except ε β} {b : β}
    (h : (x >>= f) = .ok b) : ∃ a, x = .ok a ∧ f a = .ok b := by
  cases x with
  | error e => simp [bind, Except.bind] at h
  | ok a => exact ⟨a, rfl, h⟩

theorem newBindMount_congr (c : Container) (g g1 : Spec) (dst src : String)
    (h : g1.Readonly = g.Readonly) : newBindMount c g1 dst src = newBindMount c g dst src := by
  simp [newBindMount, IsReadOnly, h]

theorem addBindMount_mounts (c : Container) (b : Build) (dst src : String) :
    (addBindMount c b dst src).g.Mounts =
      (if dst ∈ b.g.Mounts.map (fun m => m.Destination) then b.g.Mounts
        else b.g.Mounts ++ [newBindMount c b.g dst src]) ∧
    (addBindMount c b dst src).g.Readonly = b.g.Readonly := by
  unfold addBindMount
  by_cases h : MountExists b.g.Mounts dst = true
  · have h2 := (MountExists_iff _ _).mp h
    simp only [h, not_true_eq_false, if_false, h2, if_true, and_self]
  · have h2 : dst ∉ b.g.Mounts.map (fun m => m.Destination) :=
      fun hm => h ((MountExists_iff _ _).mpr hm)
    simp only [h, not_false_eq_true, if_true, h2, if_false]
    exact ⟨rfl, rfl⟩

theorem foldl_addBindMount_mounts (c : Container) (binds : List (String × String)) (b : Build)
    (hkeys : (binds.map Prod.fst).Nodup) :
    (binds.foldl (fun b p => addBindMount c b p.1 p.2) b).g.Mounts =
      b.g.Mounts ++
        (binds.filter (fun p => p.1 ∉ b.g.Mounts.map (fun m => m.Destination))).map
          (fun p => newBindMount c b.g p.1 p.2) ∧
    (binds.foldl (fun b p => addBindMount c b p.1 p.2) b).g.Readonly = b.g.Readonly := by
  induction binds generalizing b with
  | nil => simp
  | cons p rest ih =>
    simp only [List.map_cons, List.nodup_cons] at hkeys
    obtain ⟨hp, hrest⟩ := hkeys
    obtain ⟨hm, hr⟩ := addBindMount_mounts c b p.1 p.2
    obtain ⟨ih1, ih2⟩ := ih (addBindMount c b p.1 p.2) hrest
    simp only [List.foldl_cons]
    refine ⟨?_, ih2.trans hr⟩
    rw [ih1]
    have hcongr : ∀ q : String × String,
        newBindMount c (addBindMount c b p.1 p.2).g q.1 q.2 = newBindMount c b.g q.1 q.2 :=
      fun q => newBindMount_congr c b.g _ q.1 q.2 hr
    simp only [hcongr]
    by_cases hd : p.1 ∈ b.g.Mounts.map (fun m => m.Destination)
    · simp only [hd, if_true] at hm
      rw [hm, List.filter_cons_of_neg (by simpa using hd)]
    · simp only [hd, if_false] at hm
      rw [hm, List.filter_cons_of_pos (by simpa using hd)]
      simp only [List.map_cons, List.append_assoc, List.singleton_append]
      congr 2
      congr 1
      apply List.filter_congr
      intro q hq
      have hne : q.1 ≠ p.1 := fun e => hp (e ▸ List.mem_map.mpr ⟨q, hq, rfl⟩)
      simp [newBindMount, hne]

theorem addNamedVolume_mounts (W : World) (c : Container) (hostUID hostGID : Nat) (b b1 : Build)
    (v : ContainerNamedVolume) (h : addNamedVolume W c hostUID hostGID b v = .ok b1) :
    ∃ m, b1.g.Mounts = b.g.Mounts ++ [m] ∧ m.Destination = v.Dest ∧
      b1.g.Readonly = b.g.Readonly := by
  unfold addNamedVolume at h
  simp only [bind, Except.bind] at h
  cases h1 : W.volumeMountPoint v.Name with
  | error e => simp [h1] at h
  | ok mountPoint =>
    simp only [h1] at h
    cases h2 : overlayFlagLoop v.Options v.Options (false, "", "") with
    | error e => simp [h2] at h
    | ok r =>
      obtain ⟨flag, upperDir, workDir⟩ := r
      simp only [h2] at h
      cases flag with
      | false =>
        simp [pure, Except.pure] at h
        subst h
        exact ⟨_, rfl, rfl, rfl⟩
      | true =>
        simp only [if_true] at h
        cases h3 : W.TempDir c.StaticDir b.tmp with
        | error e => simp [h3] at h
        | ok contentDir =>
          simp only [h3] at h
          cases h4 : W.MountWithOptions contentDir mountPoint v.Dest upperDir workDir with
          | error e => simp [h4] at h
          | ok r =>
            simp only [h4] at h
            cases h5 : chownLoop W mountPoint contentDir hostUID hostGID v.Options with
            | error e => simp [h5] at h
            | ok u =>
              simp [h5, pure, Except.pure] at h
              subst h
              exact ⟨_, rfl, rfl, rfl⟩

theorem addNamedVolumes_mounts (W : World) (c : Container) (hostUID hostGID : Nat)
    (vols : List ContainerNamedVolume) (b b1 : Build)
    (h : addNamedVolumes W c hostUID hostGID vols b = .ok b1) :
    ∃ named, b1.g.Mounts = b.g.Mounts ++ named ∧
      named.map (fun m => m.Destination) = vols.map (fun v => v.Dest) ∧
      b1.g.Readonly = b.g.Readonly := by
  induction vols generalizing b with
  | nil =>
    simp [addNamedVolumes, pure, Except.pure] at h
    subst h
    exact ⟨[], by simp, rfl, rfl⟩
  | cons v rest ih =>
    simp only [addNamedVolumes] at h
    cases h1 : addNamedVolume W c hostUID hostGID b v with
    | error e => simp [h1] at h
    | ok b2 =>
      simp only [h1] at h
      obtain ⟨m, hm, hd, hr⟩ := addNamedVolume_mounts W c hostUID hostGID b b2 v h1
      obtain ⟨named, hn, hnd, hnr⟩ := ih b2 h
      refine ⟨m :: named, ?_, ?_, hnr.trans hr⟩
      · rw [hn, hm]; simp
      · simp [hd, hnd]

theorem addOverlayVolume_mounts (W : World) (c : Container) (hostUID hostGID : Nat)
    (b b1 : Build) (v : ContainerOverlayVolume)
    (h : addOverlayVolume W c hostUID hostGID b v = .ok b1) :
    ∃ m, b1.g.Mounts = b.g.Mounts ++ [m] ∧ m.Destination = v.Dest := by
  unfold addOverlayVolume at h
  simp only [bind, Except.bind] at h
  cases h1 : getOverlayUpperAndWorkDir v.Options with
  | error e => simp [h1] at h
  | ok r =>
    obtain ⟨upperDir, workDir⟩ := r
    simp only [h1] at h
    cases h3 : W.TempDir c.StaticDir b.tmp with
    | error e => simp [h3] at h
    | ok contentDir =>
      simp only [h3] at h
      cases h4 : W.MountWithOptions contentDir v.Source v.Dest upperDir workDir with
      | error e => simp [h4] at h
      | ok r =>
        simp only [h4] at h
        cases h5 : chownLoop W v.Source contentDir hostUID hostGID v.Options with
        | error e => simp [h5] at h
        | ok u =>
          simp [h5, pure, Except.pure] at h
          subst h
          exact ⟨_, rfl, rfl⟩

theorem addOverlayVolumes_mounts (W : World) (c : Container) (hostUID hostGID : Nat)
    (vols : List ContainerOverlayVolume) (b b1 : Build)
    (h : addOverlayVolumes W c hostUID hostGID vols b = .ok b1) :
    ∃ overlays, b1.g.Mounts = b.g.Mounts ++ overlays ∧
      overlays.map (fun m => m.Destination) = vols.map (fun v => v.Dest) := by
  induction vols generalizing b with
  | nil =>
    simp [addOverlayVolumes, pure, Except.pure] at h
    subst h
    exact ⟨[], by simp, rfl⟩
  | cons v rest ih =>
    simp only [addOverlayVolumes] at h
    cases h1 : addOverlayVolume W c hostUID hostGID b v with
    | error e => simp [h1] at h
    | ok b2 =>
      simp only [h1] at h
      obtain ⟨m, hm, hd⟩ := addOverlayVolume_mounts W c hostUID hostGID b b2 v h1
      obtain ⟨overlays, hn, hnd⟩ := ih b2 h
      refine ⟨m :: overlays, ?_, ?_⟩
      · rw [hn, hm]; simp
      · simp [hd, hnd]

theorem addImageVolume_mounts (W : World) (c : Container) (b b1 : Build)
    (v : ContainerImageVolume) (h : addImageVolume W c b v = .ok b1) :
    ∃ m, b1.g.Mounts = b.g.Mounts ++ [m] ∧ m.Destination = v.Dest := by
  unfold addImageVolume at h
  simp only [bind, Except.bind] at h
  cases h1 : W.imageMountPoint v.Source with
  | error e => simp [h1] at h
  | ok mountPoint =>
    simp only [h1] at h
    cases h3 : W.TempDir c.StaticDir b.tmp with
    | error e => simp [h3] at h
    | ok contentDir =>
      simp only [h3] at h
      cases hrw : v.ReadWrite with
      | true =>
        simp only [hrw, if_true] at h
        cases h4 : W.OverlayMount contentDir mountPoint v.Dest with
        | error e => simp [h4] at h
        | ok r =>
          simp [h4, pure, Except.pure] at h
          subst h
          exact ⟨_, rfl, rfl⟩
      | false =>
        simp only [hrw] at h
        cases h4 : W.OverlayMountReadOnly contentDir mountPoint v.Dest with
        | error e => simp [h4] at h
        | ok r =>
          simp [h4, pure, Except.pure] at h
          subst h
          exact ⟨_, rfl, rfl⟩

theorem addImageVolumes_mounts (W : World) (c : Container)
    (vols : List ContainerImageVolume) (b b1 : Build)
    (h : addImageVolumes W c vols b = .ok b1) :
    ∃ images, b1.g.Mounts = b.g.Mounts ++ images ∧
      images.map (fun m => m.Destination) = vols.map (fun v => v.Dest) := by
  induction vols generalizing b with
  | nil =>
    simp [addImageVolumes, pure, Except.pure] at h
    subst h
    exact ⟨[], by simp, rfl⟩
  | cons v rest ih =>
    simp only [addImageVolumes] at h
    cases h1 : addImageVolume W c b v with
    | error e => simp [h1] at h
    | ok b2 =>
      simp only [h1] at h
      obtain ⟨m, hm, hd⟩ := addImageVolume_mounts W c b b2 v h1
      obtain ⟨images, hn, hnd⟩ := ih b2 h
      refine ⟨m :: images, ?_, ?_⟩
      · rw [hn, hm]; simp
      · simp [hd, hnd]

theorem normalizedMount_Destination (execUser : ExecUser) (mounts : List Mount) :
    (mounts.map (normalizedMount execUser)).map (fun m => m.Destination) =
      mounts.map (fun m => m.Destination) := by
  simp [List.map_map, Function.comp_def, normalizedMount]

/-- The mount list the mount-adding steps leave (lines 127-314). -/
theorem addMounts_mounts (W : World) (c : Container) (execUser : ExecUser)
    (hostUID hostGID : Nat) (b b1 : Build)
    (hkeys : (c.BindMounts.map Prod.fst).Nodup)
    (h : addMounts W c execUser hostUID hostGID b = .ok b1) :
    ∃ named overlays images,
      named.map (fun m => m.Destination) = c.NamedVolumes.map (fun v => v.Dest) ∧
      overlays.map (fun m => m.Destination) = c.OverlayVolumes.map (fun v => v.Dest) ∧
      images.map (fun m => m.Destination) = c.ImageVolumes.map (fun v => v.Dest) ∧
      b1.g.Mounts =
        (b.g.Mounts ++ named).map (normalizedMount execUser) ++
        keptBindMounts c b.g ((b.g.Mounts ++ named).map (fun m => m.Destination)) ++
        overlays ++ images := by
  unfold addMounts at h
  obtain ⟨b2, h1, h⟩ := bind_eq_ok h
  obtain ⟨mounts, h2, h⟩ := bind_eq_ok h
  obtain ⟨b3, h3, h⟩ := bind_eq_ok h
  obtain ⟨named, hn, hnd, hnr⟩ := addNamedVolumes_mounts W c hostUID hostGID _ b b2 h1
  obtain ⟨overlays, ho, hod⟩ := addOverlayVolumes_mounts W c hostUID hostGID _ _ b3 h3
  obtain ⟨images, hi, hid⟩ := addImageVolumes_mounts W c _ _ b1 h
  have hres := normalizeMounts_result W execUser hostUID hostGID _ _ h2
  refine ⟨named, overlays, images, hnd, hod, hid, ?_⟩
  have hmap : ∀ (l : List (String × String)) (g2 : Spec), g2.Readonly = b.g.Readonly →
      l.map (fun p => newBindMount c g2 p.1 p.2) =
        l.map (fun p => newBindMount c b.g p.1 p.2) := by
    intro l g2 h2
    apply List.map_congr_left
    intro q _
    exact newBindMount_congr c b.g g2 q.1 q.2 h2
  rw [hi, ho]
  unfold addBindMounts
  rw [(foldl_addBindMount_mounts c c.BindMounts _ hkeys).1, hmap]
  · simp only [hres, hn, normalizedMount_Destination, keptBindMounts]
  · exact hnr

theorem AddOrReplaceLinuxNamespace_mounts (g g1 : Spec) (kind path : String)
    (h : g.AddOrReplaceLinuxNamespace kind path = .ok g1) :
    g1.Mounts = g.Mounts ∧ g1.Readonly = g.Readonly := by
  unfold Spec.AddOrReplaceLinuxNamespace at h
  by_cases hk : kind ∈ validNamespaces
  · simp [hk, pure, Except.pure] at h
    subst h
    exact ⟨rfl, rfl⟩
  · simp [hk, throw, throwThe, MonadExceptOf.throw] at h

theorem AddProcessAdditionalGid_mounts (g : Spec) (gid : Nat) :
    (g.AddProcessAdditionalGid gid).Mounts = g.Mounts := by
  unfold Spec.AddProcessAdditionalGid
  split <;> rfl

theorem AddProcessEnv_mounts (g : Spec) (name value : String) :
    (g.AddProcessEnv name value).Mounts = g.Mounts := by
  unfold Spec.AddProcessEnv
  split <;> rfl

theorem ensureHome_mounts (execUser : ExecUser) (g : Spec) :
    (ensureHome execUser g).Mounts = g.Mounts := by
  unfold ensureHome
  simp only
  split <;> rfl

theorem setProcessUser_mounts (c : Container) (execUser : ExecUser) (g : Spec) :
    (setProcessUser c execUser g).Mounts = g.Mounts := by
  unfold setProcessUser
  split
  · rw [AddProcessAdditionalGid_mounts]
  · rfl

theorem setUmask_mounts (c : Container) (g g1 : Spec) (h : setUmask c g = .ok g1) :
    g1.Mounts = g.Mounts := by
  unfold setUmask at h
  split at h
  · split at h
    · cases h
    · simp only [pure, Except.pure, Except.ok.injEq] at h
      subst h
      rfl
  · simp only [pure, Except.pure, Except.ok.injEq] at h
    subst h
    rfl

theorem foldl_AddProcessAdditionalGid_mounts (gids : List Nat) (g : Spec) :
    (gids.foldl Spec.AddProcessAdditionalGid g).Mounts = g.Mounts := by
  induction gids generalizing g with
  | nil => rfl
  | cons x rest ih =>
    simp only [List.foldl_cons]
    rw [ih, AddProcessAdditionalGid_mounts]

theorem addConfiguredGroups_mounts (W : World) (c : Container) (g g1 : Spec)
    (h : addConfiguredGroups W c g = .ok g1) : g1.Mounts = g.Mounts := by
  unfold addConfiguredGroups at h
  split at h
  · split at h
    · cases h
    · simp only [pure, Except.pure, Except.ok.injEq] at h
      subst h
      exact foldl_AddProcessAdditionalGid_mounts _ _
  · simp only [pure, Except.pure, Except.ok.injEq] at h
    subst h
    rfl

theorem foldl_addSupplementalGid_mounts (gidMappings : List IDMap) (sgids : List Int)
    (b : Build) :
    (sgids.foldl (addSupplementalGid gidMappings) b).g.Mounts = b.g.Mounts := by
  induction sgids generalizing b with
  | nil => rfl
  | cons x rest ih =>
    simp only [List.foldl_cons]
    rw [ih]
    unfold addSupplementalGid
    split
    · exact AddProcessAdditionalGid_mounts _ _
    · rfl

theorem addSupplementalGroups_mounts (W : World) (c : Container) (execUser : ExecUser)
    (b b1 : Build) (h : addSupplementalGroups W c execUser b = .ok b1) :
    b1.g.Mounts = b.g.Mounts := by
  unfold addSupplementalGroups at h
  split at h
  · split at h
    · cases h
    · simp only [pure, Except.pure, Except.ok.injEq] at h
      subst h
      exact foldl_addSupplementalGid_mounts _ _ _
  · simp only [pure, Except.pure, Except.ok.injEq] at h
    subst h
    rfl

theorem addNamespaceContainer_mounts (W : World) (g g1 : Spec) (ctr kind : String)
    (h : addNamespaceContainer W g ctr kind = .ok g1) : g1.Mounts = g.Mounts := by
  unfold addNamespaceContainer at h
  split at h
  · cases h
  · exact (AddOrReplaceLinuxNamespace_mounts _ _ _ _ h).1

theorem joinNamespace_mounts (W : World) (ctr kind : String) (g g1 : Spec)
    (h : joinNamespace W ctr kind g = .ok g1) : g1.Mounts = g.Mounts := by
  unfold joinNamespace at h
  split at h
  · exact addNamespaceContainer_mounts W g g1 ctr kind h
  · simp only [pure, Except.pure, Except.ok.injEq] at h
    subst h
    rfl

theorem joinUserNamespace_mounts (W : World) (c : Container) (g g1 : Spec)
    (h : joinUserNamespace W c g = .ok g1) : g1.Mounts = g.Mounts := by
  unfold joinUserNamespace at h
  split at h
  · split at h
    · cases h
    · rename_i g2 hj
      have hm := addNamespaceContainer_mounts W g g2 _ _ hj
      split at h
      · simp only [pure, Except.pure, Except.ok.injEq] at h
        subst h
        exact hm
      · simp only [pure, Except.pure, Except.ok.injEq] at h
        subst h
        exact hm
  · simp only [pure, Except.pure, Except.ok.injEq] at h
    subst h
    rfl

theorem fitMappings_mounts (W : World) (g g1 : Spec) (h : fitMappings W g = .ok g1) :
    g1.Mounts = g.Mounts := by
  unfold fitMappings at h
  split at h
  · simp only [pure, Except.pure, Except.ok.injEq] at h
    subst h
    rfl
  · cases h
  · simp only [pure, Except.pure, Except.ok.injEq] at h
    subst h
    rfl

theorem setHostname_mounts (W : World) (c : Container) (g g1 : Spec)
    (h : setHostname W c g = .ok g1) : g1.Mounts = g.Mounts := by
  unfold setHostname at h
  simp only [bind, Except.bind, pure, Except.pure] at h
  cases hf : g.Namespaces.any (fun i => decide (i.Typ = "uts" ∧ i.Path = "")) with
  | true =>
    simp only [hf, not_true_eq_false, if_false, if_true, Except.ok.injEq] at h
    subst h
    split
    · exact AddProcessEnv_mounts _ _ _
    · rfl
  | false =>
    simp only [hf, Bool.false_eq_true, not_false_eq_true, if_true, if_false] at h
    cases hh : W.Hostname with
    | error e => simp [hh] at h
    | ok hostname =>
      simp only [hh, Except.ok.injEq] at h
      subst h
      split
      · exact AddProcessEnv_mounts _ _ _
      · rfl

theorem autoUserNamespace_mounts (c : Container) (g g1 : Spec)
    (h : autoUserNamespace c g = .ok g1) : g1.Mounts = g.Mounts := by
  by_cases hon : c.UserNsCtr = "" ∧ c.IDMappings.AutoUserNs = true
  · rw [autoUserNamespace_eq c g hon.1 hon.2] at h
    simp only [Except.ok.injEq] at h
    subst h
    rfl
  · rw [autoUserNamespace_off c g hon] at h
    simp only [Except.ok.injEq] at h
    subst h
    rfl

theorem setAnnotations_mounts (W : World) (c : Container) (g : Spec) :
    (setAnnotations W c g).Mounts = g.Mounts := by
  unfold setAnnotations
  simp only
  split <;> rfl

theorem addEnvSecrets_mounts (W : World) (secrets : List (String × String)) (g g1 : Spec)
    (h : addEnvSecrets W secrets g = .ok g1) : g1.Mounts = g.Mounts := by
  induction secrets generalizing g with
  | nil =>
    simp only [addEnvSecrets, pure, Except.pure, Except.ok.injEq] at h
    subst h
    rfl
  | cons p rest ih =>
    obtain ⟨name, secr⟩ := p
    simp only [addEnvSecrets] at h
    split at h
    · cases h
    · rw [ih _ h, AddProcessEnv_mounts]

theorem passListenEnv_mounts (W : World) (g : Spec) :
    (passListenEnv W g).Mounts = g.Mounts := by
  have step : ∀ (g : Spec) (key : String), (passListenKey W g key).Mounts = g.Mounts := by
    intro g key
    rw [passListenKey_eq]
    cases W.LookupEnv key with
    | none => rfl
    | some val => exact AddProcessEnv_mounts _ _ _
  unfold passListenEnv
  simp only [List.foldl_cons, List.foldl_nil, step]

theorem canonicalizeMount_result (W : World) (c : Container) (m m1 : Mount)
    (h : canonicalizeMount W c m = .ok m1) : m1 = finalMount W c m := by
  unfold finalMount
  rw [h]

theorem materializeMounts_result (W : World) (c : Container) (mounts : List Mount)
    (g g1 : Spec) (rp rp1 : String)
    (h : materializeMounts W c mounts (g, rp) = .ok (g1, rp1)) :
    g1.Mounts = g.Mounts ++ mounts.map (finalMount W c) := by
  induction mounts generalizing g rp with
  | nil =>
    simp only [materializeMounts, pure, Except.pure, Except.ok.injEq, Prod.mk.injEq] at h
    rw [← h.1]
    simp
  | cons m rest ih =>
    simp only [materializeMounts] at h
    split at h
    · cases h
    · rename_i m1 hm
      rw [ih _ _ h, canonicalizeMount_result W c m m1 hm]
      simp [Spec.AddMount]

theorem SetLinuxRootPropagation_mounts (g g1 : Spec) (rp : String)
    (h : g.SetLinuxRootPropagation rp = .ok g1) : g1.Mounts = g.Mounts := by
  unfold Spec.SetLinuxRootPropagation at h
  split at h
  · simp only [pure, Except.pure, Except.ok.injEq] at h
    subst h
    rfl
  · simp [throw, throwThe, MonadExceptOf.throw] at h

/-- The mount list `finalizeMounts` returns: the sorted mounts, materialized. -/
theorem finalizeMounts_mounts (W : World) (c : Container) (g g1 : Spec)
    (h : finalizeMounts W c g = .ok g1) :
    g1.Mounts = (sortMounts g.Mounts).map (finalMount W c) := by
  unfold finalizeMounts at h
  obtain ⟨r, hr, h⟩ := bind_eq_ok h
  obtain ⟨g2, rp⟩ := r
  have hm := materializeMounts_result W c _ _ _ _ _ hr
  simp only [Spec.ClearMounts, List.nil_append] at hm
  simp only at h
  split at h
  · rw [SetLinuxRootPropagation_mounts _ _ _ h, hm]
  · simp only [pure, Except.pure, Except.ok.injEq] at h
    subst h
    exact hm

theorem keptBindMounts_congr (c : Container) (g g1 : Spec) (claimed : List String)
    (h : g1.Readonly = g.Readonly) : keptBindMounts c g1 claimed = keptBindMounts c g claimed := by
  unfold keptBindMounts
  apply List.map_congr_left
  intro q _
  exact newBindMount_congr c g g1 q.1 q.2 h

theorem finalMount_congr (W : World) (c c1 : Container) (h : c1.Mountpoint = c.Mountpoint) :
    finalMount W c1 = finalMount W c := by
  funext m
  unfold finalMount canonicalizeMount
  rw [h]

/-- The mount list of the descriptor `generateSpec` returns, from the template mounts, the
volumes and the bind-mount map. -/
theorem generateSpec_mounts_aux (W : World) (c : Container) (b : Build)
    (hquiet : outsideKeepsMounts W c)
    (hkeys : ∀ binds, W.makeBindMounts c.BindMounts = .ok binds → (binds.map Prod.fst).Nodup)
    (h : generateSpec W c = .ok b) :
    ∃ execUser binds named overlays images,
      W.makeBindMounts c.BindMounts = .ok binds ∧
      named.map (fun m => m.Destination) = c.NamedVolumes.map (fun v => v.Dest) ∧
      overlays.map (fun m => m.Destination) = c.OverlayVolumes.map (fun v => v.Dest) ∧
      images.map (fun m => m.Destination) = c.ImageVolumes.map (fun v => v.Dest) ∧
      b.g.Mounts =
        (sortMounts
          ((c.Spec.Mounts ++ named).map (normalizedMount execUser) ++
            keptBindMounts { c with BindMounts := binds } c.Spec
              ((c.Spec.Mounts ++ named).map (fun m => m.Destination)) ++
            overlays ++ images)).map (finalMount W c) := by
  obtain ⟨hq1, hq2, hq3, hq4, hq5⟩ := hquiet
  unfold generateSpec at h
  lift_lets at h
  extract_lets g0 jpUser at h
  have hx : ∃ execUser, jpUser execUser = .ok b := by
    split at h
    · exact ⟨_, h⟩
    · split at h
      · obtain ⟨u, _, h⟩ := bind_eq_ok h
        exact ⟨u, h⟩
      · cases h
  clear h
  obtain ⟨execUser, h⟩ := hx
  unfold jpUser at h
  clear jpUser
  lift_lets at h
  extract_lets jpA jpB jpC at h
  have hx : ∃ g1, jpC g1 = .ok b ∧ g1.Mounts = c.Spec.Mounts ∧ g1.Readonly = c.Spec.Readonly := by
    split at h
    next hc =>
      obtain ⟨g1, hg1, h⟩ := bind_eq_ok h
      exact ⟨g1, h, hq1 hc _ _ hg1⟩
    next => exact ⟨g0, h, rfl, rfl⟩
  clear h
  obtain ⟨g1, h, hm1, hr1⟩ := hx
  unfold jpC at h
  clear jpC
  have hx : ∃ g2, jpB g2 = .ok b ∧ g2.Mounts = c.Spec.Mounts ∧ g2.Readonly = c.Spec.Readonly := by
    split at h
    · split at h
      · obtain ⟨g2, hg2, h⟩ := bind_eq_ok h
        obtain ⟨e1, e2⟩ := AddOrReplaceLinuxNamespace_mounts _ _ _ _ hg2
        exact ⟨g2, h, e1.trans hm1, e2.trans hr1⟩
      · obtain ⟨g2, hg2, h⟩ := bind_eq_ok h
        obtain ⟨e1, e2⟩ := AddOrReplaceLinuxNamespace_mounts _ _ _ _ hg2
        exact ⟨g2, h, e1.trans hm1, e2.trans hr1⟩
    · exact ⟨g1, h, hm1, hr1⟩
  clear h
  obtain ⟨g2, h, hm2, hr2⟩ := hx
  unfold jpB at h
  clear jpB
  have hx : ∃ g3, jpA g3 = .ok b ∧ g3.Mounts = c.Spec.Mounts ∧ g3.Readonly = c.Spec.Readonly := by
    split at h
    · obtain ⟨u, _, h⟩ := bind_eq_ok h
      exact ⟨_, h, hm2, hr2⟩
    · exact ⟨g2, h, hm2, hr2⟩
  clear h
  obtain ⟨g3, h, hm3, hr3⟩ := hx
  unfold jpA at h
  clear jpA
  obtain ⟨binds, hbinds, k⟩ := bind_eq_ok h
  clear h
  rename' k => h
  obtain ⟨g4, hg4, k⟩ := bind_eq_ok h
  clear h
  rename' k => h
  obtain ⟨ids, hids, k⟩ := bind_eq_ok h
  clear h
  rename' k => h
  obtain ⟨hostUID, hostGID⟩ := ids
  obtain ⟨b1, hb1, k⟩ := bind_eq_ok h
  clear h
  rename' k => h
  lift_lets at h
  extract_lets gH gU jpS at h
  obtain ⟨g6, hg6, k⟩ := bind_eq_ok h
  clear h
  rename' k => h
  obtain ⟨g7, hg7, k⟩ := bind_eq_ok h
  clear h
  rename' k => h
  have hx : ∃ g8, jpS g8 = .ok b ∧ g8.Mounts = g7.Mounts := by
    split at h
    next hc =>
      split at h
      · cases h
      · rename_i hs
        exact ⟨_, h, (hq3 hc _ _ hs).1⟩
    next => exact ⟨g7, h, rfl⟩
  clear h
  obtain ⟨g8, h, hm8⟩ := hx
  unfold jpS at h
  clear jpS
  obtain ⟨b2, hb2, k⟩ := bind_eq_ok h
  clear h
  rename' k => h
  lift_lets at h
  extract_lets jpL jpSec jpH at h
  obtain ⟨g9, hg9, k⟩ := bind_eq_ok h
  clear h
  rename' k => h
  obtain ⟨g10, hg10, k⟩ := bind_eq_ok h
  clear h
  rename' k => h
  obtain ⟨g11, hg11, k⟩ := bind_eq_ok h
  clear h
  rename' k => h
  obtain ⟨g12, hg12, k⟩ := bind_eq_ok h
  clear h
  rename' k => h
  obtain ⟨g13, hg13, k⟩ := bind_eq_ok h
  clear h
  rename' k => h
  obtain ⟨g14, hg14, k⟩ := bind_eq_ok h
  clear h
  rename' k => h
  obtain ⟨g15, hg15, k⟩ := bind_eq_ok h
  clear h
  rename' k => h
  obtain ⟨g16, hg16, k⟩ := bind_eq_ok h
  clear h
  rename' k => h
  obtain ⟨g17, hg17, k⟩ := bind_eq_ok h
  clear h
  rename' k => h
  obtain ⟨g18, hg18, k⟩ := bind_eq_ok h
  clear h
  rename' k => h
  obtain ⟨cgroupPath, hcg, k⟩ := bind_eq_ok h
  clear h
  rename' k => h
  lift_lets at h
  extract_lets gC at h
  have hx : ∃ g19, jpH g19 = .ok b ∧ g19.Mounts = g18.Mounts := by
    split at h
    next hc =>
      split at h
      · cases h
      · rename_i hs
        exact ⟨_, h, ((hq4 hc _ _ hs).1).trans (setAnnotations_mounts _ _ _)⟩
    next => exact ⟨gC, h, setAnnotations_mounts _ _ _⟩
  clear h
  obtain ⟨g19, h, hm19⟩ := hx
  unfold jpH at h
  clear jpH
  obtain ⟨g20, hg20, k⟩ := bind_eq_ok h
  clear h
  rename' k => h
  have hx : ∃ g21, jpSec g21 = .ok b ∧ g21.Mounts = g20.Mounts := by
    split at h
    · cases h
    · rename_i hs
      exact ⟨_, h, (hq5 _ _ hs).1⟩
  clear h
  obtain ⟨g21, h, hm21⟩ := hx
  unfold jpSec at h
  clear jpSec
  have hx : ∃ g22, jpL g22 = .ok b ∧ g22.Mounts = g21.Mounts := by
    split at h
    · obtain ⟨g22, hs, h⟩ := bind_eq_ok h
      exact ⟨g22, h, addEnvSecrets_mounts _ _ _ _ hs⟩
    · exact ⟨g21, h, rfl⟩
  clear h
  obtain ⟨g22, h, hm22⟩ := hx
  unfold jpL at h
  clear jpL
  simp only [pure, Except.pure, Except.ok.injEq] at h
  subst h
  obtain ⟨e4m, e4r⟩ := hq2 _ _ hg4
  obtain ⟨named, overlays, images, hn, ho, hi, hacc⟩ :=
    addMounts_mounts W _ execUser hostUID hostGID _ b1 (hkeys binds hbinds) hb1
  refine ⟨execUser, binds, named, overlays, images, hbinds, hn, ho, hi, ?_⟩
  have hfin := finalizeMounts_mounts W _ g19 g20 hg20
  have e18 := autoUserNamespace_mounts _ _ _ hg18
  have e17 := joinNamespace_mounts W _ _ _ _ hg17
  have e16 := joinNamespace_mounts W _ _ _ _ hg16
  have e15 := setHostname_mounts W _ _ _ hg15
  have e14 := fitMappings_mounts W _ _ hg14
  have e13 := joinUserNamespace_mounts W _ _ _ hg13
  have e12 := joinNamespace_mounts W _ _ _ _ hg12
  have e11 := joinNamespace_mounts W _ _ _ _ hg11
  have e10 := joinNamespace_mounts W _ _ _ _ hg10
  have e9 := joinNamespace_mounts W _ _ _ _ hg9
  have eb2 := addSupplementalGroups_mounts W _ execUser _ b2 hb2
  have e7 := addConfiguredGroups_mounts W _ _ _ hg7
  have e6 := setUmask_mounts _ _ _ hg6
  have eU : gU.Mounts = b1.g.Mounts :=
    (setProcessUser_mounts _ _ _).trans (ensureHome_mounts _ _)
  have hpre : g19.Mounts = b1.g.Mounts := by
    rw [hm19, e18, e17, e16, e15, e14, e13, e12, e11, e10, e9, eb2]
    show g8.Mounts = b1.g.Mounts
    rw [hm8, e7, e6, eU]
  have hk : keptBindMounts { c with BindMounts := binds } g4
        ((c.Spec.Mounts ++ named).map (fun m => m.Destination)) =
      keptBindMounts { c with BindMounts := binds } c.Spec
        ((c.Spec.Mounts ++ named).map (fun m => m.Destination)) :=
    keptBindMounts_congr _ _ _ _ (e4r.trans hr3)
  show (passListenEnv W g22).Mounts = _
  rw [passListenEnv_mounts, hm22, hm21, hfin, hpre, hacc]
  simp only [e4m, hm3]
  rw [hk, finalMount_congr W c { c with BindMounts := binds } rfl]

theorem nodup_claims (claimed later keys : List String) (h1 : (claimed ++ later).Nodup)
    (hk : keys.Nodup) (h2 : ∀ d ∈ later, d ∉ keys) :
    (claimed ++ keys.filter (fun d => d ∉ claimed) ++ later).Nodup := by
  rw [List.nodup_append] at h1
  obtain ⟨hc, hl, hd⟩ := h1
  rw [List.nodup_append, List.nodup_append]
  refine ⟨⟨hc, hk.filter _, ?_⟩, hl, ?_⟩
  · intro d hd1 hd2
    have := (List.mem_filter.mp hd2).2
    simp only [decide_eq_true_eq] at this
    exact this hd1
  · intro d hd1 hd2
    rcases List.mem_append.mp hd1 with hd1 | hd1
    · exact hd hd1 hd2
    · exact h2 d hd2 (List.mem_filter.mp hd1).1

theorem keptBindMounts_Destination (c : Container) (g : Spec) (claimed : List String) :
    (keptBindMounts c g claimed).map (fun m => m.Destination) =
      (c.BindMounts.map Prod.fst).filter (fun d => d ∉ claimed) := by
  unfold keptBindMounts
  rw [List.map_map, List.filter_map]
  rfl

/-- C4 (amended): when `generateSpec` returns, the bind-mount map has distinct keys and the
collaborators outside the mount steps leave the mount list as it is, the final mount list
is, sorted by depth and with every mount materialized, exactly: every template mount and
one mount per named volume (options normalized), then one bind mount for each runtime-state
pair whose destination no template mount and no named volume claims, then one mount per
overlay volume and one per image volume. So a runtime-state bind mount whose destination is
already claimed is dropped and the first claimant is kept, while named, overlay and image
volumes are never dropped. The final destinations are pairwise distinct when materializing
keeps destinations, the template, named-volume, overlay-volume and image-volume
destinations are pairwise distinct and no overlay or image volume is at the destination of
a runtime-state bind mount. -/
theorem generateSpec_final_mounts (W : World) (c : Container) (b : Build)
    (hquiet : outsideKeepsMounts W c)
    (hkeys : ∀ binds, W.makeBindMounts c.BindMounts = .ok binds → (binds.map Prod.fst).Nodup)
    (h : generateSpec W c = .ok b) :
    ∃ execUser binds named overlays images,
      W.makeBindMounts c.BindMounts = .ok binds ∧
      named.map (fun m => m.Destination) = c.NamedVolumes.map (fun v => v.Dest) ∧
      overlays.map (fun m => m.Destination) = c.OverlayVolumes.map (fun v => v.Dest) ∧
      images.map (fun m => m.Destination) = c.ImageVolumes.map (fun v => v.Dest) ∧
      b.g.Mounts =
        (sortMounts
          ((c.Spec.Mounts ++ named).map (normalizedMount execUser) ++
            keptBindMounts { c with BindMounts := binds } c.Spec
              ((c.Spec.Mounts ++ named).map (fun m => m.Destination)) ++
            overlays ++ images)).map (finalMount W c) ∧
      (canonicalPaths W c →
        (c.Spec.Mounts.map (fun m => m.Destination) ++ c.NamedVolumes.map (fun v => v.Dest) ++
          (c.OverlayVolumes.map (fun v => v.Dest) ++
            c.ImageVolumes.map (fun v => v.Dest))).Nodup →
        (∀ d ∈ c.OverlayVolumes.map (fun v => v.Dest) ++ c.ImageVolumes.map (fun v => v.Dest),
          d ∉ binds.map Prod.fst) →
        (b.g.Mounts.map (fun m => m.Destination)).Nodup) := by
  obtain ⟨execUser, binds, named, overlays, images, hb, hn, ho, hi, heq⟩ :=
    generateSpec_mounts_aux W c b hquiet hkeys h
  refine ⟨execUser, binds, named, overlays, images, hb, hn, ho, hi, heq, ?_⟩
  intro hcan hnd hdis
  have hmat : ∀ l : List Mount,
      (l.map (finalMount W c)).map (fun m => m.Destination) = l.map (fun m => m.Destination) := by
    intro l
    rw [List.map_map]
    apply List.map_congr_left
    intro m _
    exact hcan m
  rw [heq, hmat, ((sortMounts_perm _).map _).nodup_iff]
  simp only [List.map_append, normalizedMount_Destination, keptBindMounts_Destination, hn, ho, hi,
    List.append_assoc]
  have := nodup_claims
    (c.Spec.Mounts.map (fun m => m.Destination) ++ c.NamedVolumes.map (fun v => v.Dest))
    (c.OverlayVolumes.map (fun v => v.Dest) ++ c.ImageVolumes.map (fun v => v.Dest))
    (binds.map Prod.fst) hnd (hkeys binds hb) hdis
  simpa only [List.append_assoc] using this

theorem generateSpec_final_mounts_witness :
    outsideKeepsMounts quietWorld hostsContainer ∧
    (∀ binds, quietWorld.makeBindMounts hostsContainer.BindMounts = .ok binds →
      (binds.map Prod.fst).Nodup) ∧
    ∃ b, generateSpec quietWorld hostsContainer = .ok b ∧
      b.g.Mounts =
        [{ Destination := "/data", Typ := "bind", Source := "/volumes/data", Options := [] },
          { Destination := "/etc/hosts", Typ := "bind", Source := "", Options := ["ro"] },
          { Destination := "/etc/resolv.conf", Typ := "bind", Source := "/run/ctr/resolv.conf",
            Options := ["bind", "rprivate"] }] ∧
      ∃ execUser binds named overlays images,
        quietWorld.makeBindMounts hostsContainer.BindMounts = .ok binds ∧
        named.map (fun m => m.Destination) =
          hostsContainer.NamedVolumes.map (fun v => v.Dest) ∧
        overlays.map (fun m => m.Destination) =
          hostsContainer.OverlayVolumes.map (fun v => v.Dest) ∧
        images.map (fun m => m.Destination) =
          hostsContainer.ImageVolumes.map (fun v => v.Dest) ∧
        b.g.Mounts =
          (sortMounts
            ((hostsContainer.Spec.Mounts ++ named).map (normalizedMount execUser) ++
              keptBindMounts { hostsContainer with BindMounts := binds } hostsContainer.Spec
                ((hostsContainer.Spec.Mounts ++ named).map (fun m => m.Destination)) ++
              overlays ++ images)).map (finalMount quietWorld hostsContainer) := by
  have hkeep : ∀ f : Spec → Except String Spec, (∀ g, f g = .ok g) → keepsMounts f := by
    intro f hf g g1 hg
    rw [hf g] at hg
    simp only [Except.ok.injEq] at hg
    subst hg
    exact ⟨rfl, rfl⟩
  have hq : outsideKeepsMounts quietWorld hostsContainer :=
    ⟨fun _ => hkeep _ (fun _ => rfl), hkeep _ (fun _ => rfl), fun _ => hkeep _ (fun _ => rfl),
      fun _ => hkeep _ (fun _ => rfl), hkeep _ (fun _ => rfl)⟩
  have hk : ∀ binds, quietWorld.makeBindMounts hostsContainer.BindMounts = .ok binds →
      (binds.map Prod.fst).Nodup := by
    intro binds hb
    have : binds = hostsContainer.BindMounts := by
      have h0 : quietWorld.makeBindMounts hostsContainer.BindMounts =
          .ok hostsContainer.BindMounts := rfl
      rw [h0] at hb
      simp only [Except.ok.injEq] at hb
      exact hb.symm
    subst this
    decide
  have hm : finalMounts (generateSpec quietWorld hostsContainer) =
      some [{ Destination := "/data", Typ := "bind", Source := "/volumes/data", Options := [] },
        { Destination := "/etc/hosts", Typ := "bind", Source := "", Options := ["ro"] },
        { Destination := "/etc/resolv.conf", Typ := "bind", Source := "/run/ctr/resolv.conf",
          Options := ["bind", "rprivate"] }] := by decide
  refine ⟨hq, hk, ?_⟩
  cases hgen : generateSpec quietWorld hostsContainer with
  | error e => rw [hgen] at hm; simp [finalMounts] at hm
  | ok b =>
    rw [hgen] at hm
    simp only [finalMounts, Option.some.injEq] at hm
    obtain ⟨execUser, binds, named, overlays, images, hb, hn, ho, hi, heq, _⟩ :=
      generateSpec_final_mounts quietWorld hostsContainer b hq hk hgen
    exact ⟨b, rfl, hm, execUser, binds, named, overlays, images, hb, hn, ho, hi, heq⟩

end Libpod
